import Mathlib

/-!
# inwxmulti: account routing, session protocol and configuration loading

A shallow embedding of the Go package `providers/dns/inwxmulti`
(`config.go`, `inwx-multi.go`).

Modelling conventions.

* A Go `string` is a Lean `String`.  The package only compares strings for
  equality, tests them for emptiness and tests suffixes; on well-formed UTF-8
  text these agree on bytes and on code points.
* A Go `error` is a value of `GoError`; a possibly-nil `error` is an
  `Option GoError` (`none` is `nil`).
* A Go `map[string]V` is a `GoMap V`, an association list.  The order in which
  a `range` statement visits the keys is not fixed by the language, so every
  function that ranges over a map takes that order as an explicit argument
  `order`; the theorems assume only that `order` enumerates the keys
  (`order.Perm m.keys`).
* The remote endpoint (the `goinwx` client) is a record `Remote σ` of state
  transformers over an arbitrary backend state `σ`; every request that a call
  issues is also written to a trace of `Call`s.
* The helpers of package `dns01`, the TOTP generator and the clock are
  parameters (`Env`, `now`).
-/

namespace Inwxmulti

/-! ## Strings and errors -/

/-- Go `strings.HasSuffix`:
`len(s) >= len(suffix) && s[len(s)-len(suffix):] == suffix`. -/
def HasSuffix (s suffix : String) : Bool :=
  decide (s.data.length ≥ suffix.data.length) &&
    decide (s.data.drop (s.data.length - suffix.data.length) = suffix.data)

/-- Go error values as far as the package can tell them apart. -/
inductive GoError where
  /-- A `*goinwx.ErrorResponse` with its `Code` and `Message`. -/
  | errorResponse (code : Int) (message : String)
  /-- An error of any other dynamic type, with its text
  (`errors.New`, `fmt.Errorf` without `%w`, library errors). -/
  | plain (text : String)
  /-- The result of `fmt.Errorf(pre + "%w", inner)`. -/
  | wrap (pre : String) (inner : GoError)
  deriving DecidableEq, Repr

/-- The wrapper `fmt.Errorf("inwx-multi: %w", err)` used on every error path. -/
def wrapErr (err : GoError) : GoError :=
  GoError.wrap "inwx-multi: " err

/-! ## Go maps -/

/-- A Go `map[string]V`: an association list; `get?` reads the first entry of a key. -/
abbrev GoMap (V : Type) := List (String × V)

namespace GoMap

variable {V : Type}

/-- The keys of the map. -/
def keys (m : GoMap V) : List String :=
  m.map Prod.fst

/-- The lookup `m[k]` with the comma-ok result. -/
def get? (m : GoMap V) (k : String) : Option V :=
  match m with
  | [] => none
  | (k', v) :: rest => if k' = k then some v else get? rest k

/-- The assignment `m[k] = v`: the entry of `k` is replaced, or added. -/
def set (m : GoMap V) (k : String) (v : V) : GoMap V :=
  match m with
  | [] => [(k, v)]
  | (k', v') :: rest => if k' = k then (k, v) :: rest else (k', v') :: set rest k v

end GoMap

/-! ## The provider -/

/-- The `*goinwx.Client` built by `goinwx.NewClient(username, password, opts)`. -/
structure Client where
  username : String
  password : String
  sandbox : Bool
  deriving DecidableEq, Repr

/-- The type `Config` of `inwx-multi.go`; durations are in nanoseconds. -/
structure Config where
  Sandbox : Bool
  PropagationTimeout : Int
  PollingInterval : Int
  TTL : Int
  deriving DecidableEq, Repr

/-- The type `DNSProvider` of `inwx-multi.go`. -/
structure DNSProvider where
  config : Config
  clients : GoMap Client
  SharedSecrets : GoMap String
  deriving DecidableEq, Repr

/-- The pairs a `range m` statement yields when it visits the keys in the order
`order`; a string that is not a key of `m` is never visited. -/
def GoMap.range {V : Type} (m : GoMap V) (order : List String) : List (String × V) :=
  order.filterMap (fun k => (m.get? k).map (fun v => (k, v)))

/-- The loop of `getAccountDomain` over the keys in the order the `range` visits them. -/
def getAccountDomainLoop (domain : String) : List String → Option String
  | [] => none
  | accountDomain :: rest =>
    if HasSuffix domain accountDomain then some accountDomain
    else getAccountDomainLoop domain rest

/-- The method `DNSProvider.getAccountDomain`; `order` is the order in which
`range d.clients` visits the keys. -/
def getAccountDomain (d : DNSProvider) (order : List String) (domain : String) :
    Except GoError String :=
  match getAccountDomainLoop domain ((d.clients.range order).map Prod.fst) with
  | some accountDomain => .ok accountDomain
  | none => .error (.plain ("inwx-multi: no account configuration for " ++ domain))

/-! ## The remote endpoint and the local helpers -/

/-- The type `goinwx.LoginResponse`, reduced to the field the package reads. -/
structure LoginResponse where
  TFA : String
  deriving DecidableEq, Repr

/-- The type `goinwx.NameserverRecordRequest` with the fields `Present` fills in
(`Typ` is the field `Type`). -/
structure NameserverRecordRequest where
  Domain : String
  Name : String
  Typ : String
  Content : String
  TTL : Int
  deriving DecidableEq, Repr

/-- The type `goinwx.NameserverInfoRequest` with the fields `CleanUp` fills in. -/
structure NameserverInfoRequest where
  Domain : String
  Name : String
  Typ : String
  deriving DecidableEq, Repr

/-- The type `goinwx.NameserverRecord`. -/
structure NameserverRecord where
  ID : Int
  Name : String
  Typ : String
  Content : String
  TTL : Int
  deriving DecidableEq, Repr

/-- The type `goinwx.NamserverInfoResponse`, reduced to `Records`. -/
structure NamserverInfoResponse where
  Records : List NameserverRecord
  deriving DecidableEq, Repr

/-- A request sent to the remote endpoint. -/
inductive Call where
  | Login (client : Client)
  | Logout (client : Client)
  | Unlock (client : Client) (tan : String)
  | CreateRecord (client : Client) (request : NameserverRecordRequest)
  | Info (client : Client) (request : NameserverInfoRequest)
  | DeleteRecord (client : Client) (recID : Int)
  deriving DecidableEq, Repr

/-- The remote endpoint behind `goinwx.Client`: each method maps the backend state
to its result and the next backend state. -/
structure Remote (σ : Type) where
  Login : Client → σ → Except GoError LoginResponse × σ
  Logout : Client → σ → Option GoError × σ
  Unlock : Client → String → σ → Option GoError × σ
  CreateRecord : Client → NameserverRecordRequest → σ → Except GoError Int × σ
  Info : Client → NameserverInfoRequest → σ → Except GoError NamserverInfoResponse × σ
  DeleteRecord : Client → Int → σ → Option GoError × σ

/-- The local helpers the provider calls: `dns01.GetRecord`, `dns01.FindZoneByFqdn`,
`dns01.UnFqdn` and `totp.GenerateCode` (whose second argument is the time, in seconds
since the Unix epoch). -/
structure Env where
  GetRecord : String → String → String × String
  FindZoneByFqdn : String → Except GoError String
  UnFqdn : String → String
  GenerateCode : String → Nat → Except GoError String

/-- How a call ends: it returns its `error` result, or it panics. -/
inductive Outcome where
  | returned (err : Option GoError)
  | panicked
  deriving DecidableEq, Repr

/-- What a call leaves behind: its outcome, the backend state, and the requests it
sent, in order. -/
structure Run (σ : Type) where
  result : Outcome
  state : σ
  trace : List Call

/-- The read `d.SharedSecrets[accountDomain]`, the empty string for a missing key. -/
def sharedSecret (d : DNSProvider) (accountDomain : String) : String :=
  (d.SharedSecrets.get? accountDomain).getD ""

/-! ## Present and CleanUp

A call never writes `d.clients`, so every `d.clients[accountDomain]` in it reads the
same client; the model reads it once, before `Login`, and a missing entry (a nil
client) is the panic of the first method call on it. -/

section Protocol

variable {σ : Type}

/-- The method `DNSProvider.twoFactorAuth`; `client` is `d.clients[accountDomain]`. -/
def twoFactorAuth (env : Env) (w : Remote σ) (d : DNSProvider) (now : Nat) (client : Client)
    (info : LoginResponse) (accountDomain : String) (s : σ) : Option GoError × σ × List Call :=
  if info.TFA ≠ "GOOGLE-AUTH" then (none, s, [])
  else if sharedSecret d accountDomain = "" then
    (some (.plain "two factor authentication but no shared secret is given"), s, [])
  else
    match env.GenerateCode (sharedSecret d accountDomain) now with
    | .error err => (some err, s, [])
    | .ok tan => ((w.Unlock client tan s).1, (w.Unlock client tan s).2, [Call.Unlock client tan])

/-- The request `Present` builds (lines 117-123). -/
def presentRequest (env : Env) (d : DNSProvider) (authZone fqdn value : String) :
    NameserverRecordRequest :=
  { Domain := env.UnFqdn authZone, Name := env.UnFqdn fqdn, Typ := "TXT",
    Content := value, TTL := d.config.TTL }

/-- The switch of `Present` on a failed `CreateRecord` (lines 126-136). -/
def createError (err : GoError) : Option GoError :=
  match err with
  | .errorResponse _ message =>
    if message = "Object exists" then none else some (wrapErr err)
  | _ => some (wrapErr err)

/-- The part of `Present` that runs after the logout has been deferred (lines 112-138). -/
def presentBody (env : Env) (w : Remote σ) (d : DNSProvider) (now : Nat) (client : Client)
    (info : LoginResponse) (accountDomain authZone fqdn value : String) (s : σ) : Run σ :=
  match twoFactorAuth env w d now client info accountDomain s with
  | (some err, s2, tr) => ⟨.returned (some (wrapErr err)), s2, tr⟩
  | (none, s2, tr) =>
    let request := presentRequest env d authZone fqdn value
    match w.CreateRecord client request s2 with
    | (.error err, s3) => ⟨.returned (createError err), s3, tr ++ [Call.CreateRecord client request]⟩
    | (.ok _, s3) => ⟨.returned none, s3, tr ++ [Call.CreateRecord client request]⟩

/-- The deferred function of `Present` and `CleanUp`: `Logout` is called and its error
is only logged. -/
def deferredLogout (w : Remote σ) (client : Client) (body : Run σ) : Run σ :=
  ⟨body.result, (w.Logout client body.state).2, body.trace ++ [Call.Logout client]⟩

/-- The method `DNSProvider.Present`.  The trace of the call is the `Login`, the
requests of lines 112-138 and the deferred `Logout`. -/
def Present (env : Env) (w : Remote σ) (d : DNSProvider) (order : List String) (now : Nat)
    (domain keyAuth : String) (s : σ) : Run σ :=
  match getAccountDomain d order domain with
  | .error err => ⟨.returned (some (wrapErr err)), s, []⟩
  | .ok accountDomain =>
    let fqdn := (env.GetRecord domain keyAuth).1
    let value := (env.GetRecord domain keyAuth).2
    match env.FindZoneByFqdn fqdn with
    | .error err => ⟨.returned (some (wrapErr err)), s, []⟩
    | .ok authZone =>
      match d.clients.get? accountDomain with
      | none => ⟨.panicked, s, []⟩
      | some client =>
        match w.Login client s with
        | (.error err, s1) => ⟨.returned (some (wrapErr err)), s1, [Call.Login client]⟩
        | (.ok info, s1) =>
          let r := deferredLogout w client
            (presentBody env w d now client info accountDomain authZone fqdn value s1)
          ⟨r.result, r.state, Call.Login client :: r.trace⟩

/-- The request `CleanUp` sends to `Info` (lines 172-176). -/
def infoRequest (env : Env) (authZone fqdn : String) : NameserverInfoRequest :=
  { Domain := env.UnFqdn authZone, Name := env.UnFqdn fqdn, Typ := "TXT" }

/-- The deletion loop of `CleanUp` (lines 181-188): it returns `lastErr`, the backend
state and the requests sent. -/
def deleteLoop (w : Remote σ) (client : Client) :
    List NameserverRecord → Option GoError → σ → Option GoError × σ × List Call
  | [], lastErr, s => (lastErr, s, [])
  | record :: rest, lastErr, s =>
    let next :=
      match (w.DeleteRecord client record.ID s).1 with
      | some err => deleteLoop w client rest (some (wrapErr err)) (w.DeleteRecord client record.ID s).2
      | none => deleteLoop w client rest lastErr (w.DeleteRecord client record.ID s).2
    (next.1, next.2.1, Call.DeleteRecord client record.ID :: next.2.2)

/-- The part of `CleanUp` that runs after the logout has been deferred (lines 167-188). -/
def cleanUpBody (env : Env) (w : Remote σ) (d : DNSProvider) (now : Nat) (client : Client)
    (info : LoginResponse) (accountDomain authZone fqdn : String) (s : σ) : Run σ :=
  match twoFactorAuth env w d now client info accountDomain s with
  | (some err, s2, tr) => ⟨.returned (some (wrapErr err)), s2, tr⟩
  | (none, s2, tr) =>
    let request := infoRequest env authZone fqdn
    match w.Info client request s2 with
    | (.error err, s3) => ⟨.returned (some (wrapErr err)), s3, tr ++ [Call.Info client request]⟩
    | (.ok response, s3) =>
      let r := deleteLoop w client response.Records none s3
      ⟨.returned r.1, r.2.1, tr ++ Call.Info client request :: r.2.2⟩

/-- The method `DNSProvider.CleanUp`.  The trace of the call is the `Login`, the
requests of lines 167-188 and the deferred `Logout`. -/
def CleanUp (env : Env) (w : Remote σ) (d : DNSProvider) (order : List String) (now : Nat)
    (domain keyAuth : String) (s : σ) : Run σ :=
  match getAccountDomain d order domain with
  | .error err => ⟨.returned (some (wrapErr err)), s, []⟩
  | .ok accountDomain =>
    let fqdn := (env.GetRecord domain keyAuth).1
    match env.FindZoneByFqdn fqdn with
    | .error err => ⟨.returned (some (wrapErr err)), s, []⟩
    | .ok authZone =>
      match d.clients.get? accountDomain with
      | none => ⟨.panicked, s, []⟩
      | some client =>
        match w.Login client s with
        | (.error err, s1) => ⟨.returned (some (wrapErr err)), s1, [Call.Login client]⟩
        | (.ok info, s1) =>
          let r := deferredLogout w client
            (cleanUpBody env w d now client info accountDomain authZone fqdn s1)
          ⟨r.result, r.state, Call.Login client :: r.trace⟩

end Protocol

/-! ## Loading the configuration (`config.go`) -/

/-- The type `InwxAccount` of `config.go`. -/
structure InwxAccount where
  InwxUsername : String
  InwxPassword : String
  InwxSharedSecret : String
  Domains : List String
  deriving DecidableEq, Repr

/-- The type `InwxConfig` of `config.go`; `none` is the nil map. -/
structure InwxConfig where
  DomainConfig : Option (GoMap (List String))
  deriving DecidableEq, Repr

/-- The file system and the JSON decoder: `ioutil.ReadFile`, and `json.Unmarshal`
into an `InwxConfig` and into an `InwxAccount`. -/
structure Files where
  ReadFile : String → Except GoError String
  UnmarshalConfig : String → Except GoError InwxConfig
  UnmarshalAccount : String → Except GoError InwxAccount

/-- The function `readAccount` of `config.go`. -/
def readAccount (fsys : Files) (path : String) (domains : List String) :
    Except GoError InwxAccount :=
  match fsys.ReadFile path with
  | .error err => .error err
  | .ok accountJson =>
    match fsys.UnmarshalAccount accountJson with
    | .error err => .error err
    | .ok account =>
      if account.InwxUsername = "" ∨ account.InwxPassword = "" then
        .error (.plain ("missing inwx credentials in \x27" ++ path ++ "\x27"))
      else
        .ok { account with Domains := domains }

/-- The loop of `getAccounts` (lines 38-44) over the entries the `range` yields. -/
def getAccountsLoop (fsys : Files) :
    List (String × List String) → List InwxAccount → Except GoError (List InwxAccount)
  | [], accounts => .ok accounts
  | (accountConfig, domains) :: rest, accounts =>
    match readAccount fsys accountConfig domains with
    | .error err => .error err
    | .ok account => getAccountsLoop fsys rest (accounts ++ [account])

/-- The function `getAccounts` of `config.go`; `order` is the order in which
`range config.DomainConfig` visits the keys. -/
def getAccounts (fsys : Files) (order : List String) (configFile : String) :
    Except GoError (List InwxAccount) :=
  match fsys.ReadFile configFile with
  | .error err =>
    .error (.wrap ("failed to read config file \x27" ++ configFile ++ "\x27, because ") err)
  | .ok configJson =>
    match fsys.UnmarshalConfig configJson with
    | .error err =>
      .error (.wrap ("failed to parse config file \x27" ++ configFile ++ "\x27, becaues ") err)
    | .ok config =>
      match config.DomainConfig with
      | none => .error (.plain "invalid inwx configuration")
      | some domainConfig =>
        if domainConfig.length = 0 then .error (.plain "invalid inwx configuration")
        else getAccountsLoop fsys (domainConfig.range order) []

/-! ## Building the routing table -/

/-- The type `goinwx.ClientOptions`, reduced to `Sandbox`. -/
structure ClientOptions where
  Sandbox : Bool
  deriving DecidableEq, Repr

/-- The constructor `goinwx.NewClient`. -/
def NewClient (username password : String) (opts : ClientOptions) : Client :=
  { username := username, password := password, sandbox := opts.Sandbox }

/-- The inner loop of `addAccountConfig` (lines 231-234). -/
def addDomains (client : Client) (secret : String) : List String → DNSProvider → DNSProvider
  | [], d => d
  | domain :: rest, d =>
    addDomains client secret rest
      { d with clients := d.clients.set domain client,
               SharedSecrets := d.SharedSecrets.set domain secret }

/-- The outer loop of `addAccountConfig` (lines 229-235). -/
def addAccounts (opts : ClientOptions) : List InwxAccount → DNSProvider → DNSProvider
  | [], d => d
  | account :: rest, d =>
    addAccounts opts rest
      (addDomains (NewClient account.InwxUsername account.InwxPassword opts)
        account.InwxSharedSecret account.Domains d)

/-- The method `DNSProvider.addAccountConfig`: the provider after the call, or the
error. -/
def addAccountConfig (fsys : Files) (order : List String) (d : DNSProvider)
    (configFile : String) (opts : ClientOptions) : Except GoError DNSProvider :=
  match getAccounts fsys order configFile with
  | .error err => .error (wrapErr err)
  | .ok accounts => .ok (addAccounts opts accounts d)

/-- The number of `Logout` requests in a trace. -/
def logoutCount (tr : List Call) : Nat :=
  (tr.filter (fun c => match c with | Call.Logout _ => true | _ => false)).length

/-- Whether a request is an `Unlock`, `CreateRecord`, `Info` or `DeleteRecord`. -/
def Call.afterTwoFactor : Call → Bool
  | Call.Login _ => false
  | Call.Logout _ => false
  | _ => true

/-! ## Concrete data used by the examples -/

/-- A routing table in which two keys match `a.sub.example.com`. -/
def overlapProvider : DNSProvider :=
  { config := { Sandbox := false, PropagationTimeout := 60, PollingInterval := 2, TTL := 300 },
    clients := [("example.com", ⟨"user1", "password1", false⟩),
                ("sub.example.com", ⟨"user2", "password2", false⟩)],
    SharedSecrets := [("example.com", "JBSWY3DPEHPK3PXP"), ("sub.example.com", "")] }

/-- The results of `DeleteRecord` for the given record IDs when the requests are sent
one after the other, in list order, starting from the backend state `s`. -/
def deleteResults {σ : Type} (w : Remote σ) (client : Client) :
    List Int → σ → List (Option GoError)
  | [], _ => []
  | recID :: rest, s =>
    (w.DeleteRecord client recID s).1 ::
      deleteResults w client rest (w.DeleteRecord client recID s).2

/-- The state of the test backend: the stored records, each with its zone. -/
abbrev Store := List (String × NameserverRecord)

/-- The knobs of the test backend: the `TFA` field of every login response, the error
(if any) of every `CreateRecord`, and the record IDs whose deletion fails. -/
structure FakeSetup where
  tfa : String
  createErr : Option GoError
  failing : List Int

/-- A record ID not used in the store. -/
def freshID (s : Store) : Int :=
  (s.map (fun e => e.2.ID)).foldl max 0 + 1

/-- A test backend: `CreateRecord` stores a record under the zone and name of the
request, `Info` returns the stored records with the zone, name and type of the request,
`DeleteRecord` removes the records with the given ID. -/
def fakeRemote (cfg : FakeSetup) : Remote Store :=
  { Login := fun _ s => (.ok ⟨cfg.tfa⟩, s),
    Logout := fun _ s => (none, s),
    Unlock := fun _ _ s => (none, s),
    CreateRecord := fun _ req s =>
      match cfg.createErr with
      | some err => (.error err, s)
      | none =>
        (.ok (freshID s),
          (req.Domain, ⟨freshID s, req.Name, req.Typ, req.Content, req.TTL⟩) :: s),
    Info := fun _ req s =>
      (.ok ⟨(s.filter (fun e =>
          decide (e.1 = req.Domain ∧ e.2.Name = req.Name ∧ e.2.Typ = req.Typ))).map Prod.snd⟩, s),
    DeleteRecord := fun _ recID s =>
      if recID ∈ cfg.failing then (some (.errorResponse 2303 "Object does not exist"), s)
      else (none, s.filter (fun e => decide (e.2.ID ≠ recID))) }

/-- The value of the challenge record, the SHA-256 digest of the key authorization in
base64url without padding, tabulated at the key authorization `token` of the examples;
the table gives the empty string elsewhere. -/
def keyAuthDigest (keyAuth : String) : String :=
  if keyAuth = "token" then "PEaenWxYddN6Q_NT1PiOYfz4EsZu7jRXRlpAsNpBU-A" else ""

/-- The six-digit code of `totp.GenerateCode` (SHA-1, period 30 seconds), tabulated for
the base32 secret `JBSWY3DPEHPK3PXP` at the two time steps of the examples; any other
secret, such as `ABCD1234`, which is not base32, is rejected. -/
def totpCode (secret : String) (now : Nat) : Except GoError String :=
  if secret = "JBSWY3DPEHPK3PXP" then
    if now / 30 = 56666666 then .ok "324550"
    else if now / 30 = 56666667 then .ok "367665"
    else .error (.plain "no code tabulated for this time step")
  else .error (.plain "Decoding of secret as base32 failed.")

/-- The local helpers at the inputs of the examples: the record name is the challenge
label in front of the domain, with the final dot, and the value is `keyAuthDigest`;
every name of the examples lies in the zone `example.com.`; `UnFqdn` drops one final
dot; the codes are those of `totpCode`. -/
def testEnv : Env :=
  { GetRecord := fun domain keyAuth =>
      ("_acme-challenge." ++ domain ++ ".", keyAuthDigest keyAuth),
    FindZoneByFqdn := fun _ => .ok "example.com.",
    UnFqdn := fun name =>
      if name.data.getLast? = some '.' then ⟨name.data.dropLast⟩ else name,
    GenerateCode := totpCode }

/-- Three stored records under the challenge name of `example.com`. -/
def threeRecords : Store :=
  [("example.com", ⟨1, "_acme-challenge.example.com", "TXT", "v1", 300⟩),
   ("example.com", ⟨2, "_acme-challenge.example.com", "TXT", "v2", 300⟩),
   ("example.com", ⟨3, "_acme-challenge.example.com", "TXT", "v3", 300⟩)]

/-- A faithful backend, seen through the records `store s` it holds in state `s`: every
request succeeds; `Login`, `Logout`, `Unlock` and `Info` leave the records as they are;
`CreateRecord` adds one record with the zone, name, type, content and TTL of the
request; `Info` returns exactly the stored records with the zone, name and type of the
request; `DeleteRecord` removes exactly the records with the given ID. -/
structure FaithfulBackend {σ : Type} (w : Remote σ) (store : σ → Store) : Prop where
  login : ∀ c s, (∃ info, (w.Login c s).1 = .ok info) ∧ store (w.Login c s).2 = store s
  logout : ∀ c s, (w.Logout c s).1 = none ∧ store (w.Logout c s).2 = store s
  unlock : ∀ c tan s, (w.Unlock c tan s).1 = none ∧ store (w.Unlock c tan s).2 = store s
  create : ∀ c req s, ∃ recID, (w.CreateRecord c req s).1 = .ok recID ∧
    ∀ e, e ∈ store (w.CreateRecord c req s).2 ↔
      e = (req.Domain, ⟨recID, req.Name, req.Typ, req.Content, req.TTL⟩) ∨ e ∈ store s
  info : ∀ c req s, (∃ resp, (w.Info c req s).1 = .ok resp ∧
      ∀ r, r ∈ resp.Records ↔
        ((req.Domain, r) ∈ store s ∧ r.Name = req.Name ∧ r.Typ = req.Typ)) ∧
    store (w.Info c req s).2 = store s
  delete : ∀ c recID s, (w.DeleteRecord c recID s).1 = none ∧
    ∀ e, e ∈ store (w.DeleteRecord c recID s).2 ↔ (e ∈ store s ∧ e.2.ID ≠ recID)

/-- The local part of the two-factor step succeeds in a call that resolves the key `k`
and logs in from the backend state `s` at time `now`: if the login response that the
client stored for `k` receives there asks for the second factor, the shared secret
stored for `k` is not empty and the code generator accepts it. -/
def twoFactorReady {σ : Type} (env : Env) (w : Remote σ) (d : DNSProvider) (now : Nat)
    (k : String) (s : σ) : Prop :=
  ∀ c info, d.clients.get? k = some c → (w.Login c s).1 = .ok info →
    info.TFA = "GOOGLE-AUTH" →
    sharedSecret d k ≠ "" ∧ ∃ tan, env.GenerateCode (sharedSecret d k) now = .ok tan

/-- A file system with the files of the tests: a configuration that assigns one suffix
to the first account and two suffixes to the second.  File contents are stand-ins, and
the decoder maps each of them to the value it holds. -/
def testFiles : Files :=
  { ReadFile := fun path =>
      if path = "data/accounts.json" then .ok "accounts"
      else if path = "data/account1.json" then .ok "account1"
      else if path = "data/account2.json" then .ok "account2"
      else if path = "data/accountMissing.json" then .ok "accountMissing"
      else .error (.plain ("open " ++ path ++ ": no such file or directory")),
    UnmarshalConfig := fun raw =>
      if raw = "accounts" then
        .ok ⟨some [("data/account1.json", ["example.com"]),
                   ("data/account2.json", ["example.net", "example.org"])]⟩
      else if raw = "account1" then .ok ⟨none⟩
      else .error (.plain "unexpected end of JSON input"),
    UnmarshalAccount := fun raw =>
      if raw = "account1" then .ok ⟨"user1", "password1", "ABCD1234", []⟩
      else if raw = "account2" then .ok ⟨"user2", "password2", "", []⟩
      else if raw = "accountMissing" then .ok ⟨"user3", "", "", []⟩
      else .error (.plain "unexpected end of JSON input") }

/-- The file system of `testFiles` with a configuration whose second entry names an
account without a password. -/
def brokenFiles : Files :=
  { ReadFile := testFiles.ReadFile,
    UnmarshalConfig := fun _ =>
      Except.ok ⟨some [("data/account1.json", ["example.com"]),
                       ("data/accountMissing.json", ["example.net"])]⟩,
    UnmarshalAccount := testFiles.UnmarshalAccount }

/-- A provider as `NewDNSProviderConfig` creates it before `addAccountConfig` runs. -/
def emptyProvider : DNSProvider :=
  { config := { Sandbox := false, PropagationTimeout := 60, PollingInterval := 2, TTL := 300 },
    clients := [], SharedSecrets := [] }

/-! ## Facts about strings and maps -/

theorem HasSuffix_iff (s t : String) : HasSuffix s t = true ↔ ∃ p : String, s = p ++ t := by
  unfold HasSuffix
  simp only [Bool.and_eq_true, decide_eq_true_eq]
  constructor
  · rintro ⟨_, h⟩
    refine ⟨⟨s.data.take (s.data.length - t.data.length)⟩, ?_⟩
    apply String.ext
    rw [String.data_append]
    calc s.data
        = s.data.take (s.data.length - t.data.length) ++
            s.data.drop (s.data.length - t.data.length) := (List.take_append_drop _ _).symm
      _ = s.data.take (s.data.length - t.data.length) ++ t.data := by rw [h]
  · rintro ⟨p, rfl⟩
    simp

theorem GoMap.get?_isSome_iff {V : Type} (m : GoMap V) (k : String) :
    (m.get? k).isSome = true ↔ k ∈ m.keys := by
  induction m with
  | nil => simp [GoMap.get?, GoMap.keys]
  | cons e rest ih =>
    obtain ⟨k', v⟩ := e
    by_cases h : k' = k
    · simp [GoMap.get?, GoMap.keys, h]
    · have h' : ¬ k = k' := fun e => h e.symm
      simpa [GoMap.get?, GoMap.keys, h, h'] using ih

theorem GoMap.range_fst {V : Type} (m : GoMap V) (order : List String)
    (h : ∀ k ∈ order, k ∈ m.keys) : (m.range order).map Prod.fst = order := by
  induction order with
  | nil => rfl
  | cons k rest ih =>
    have hk : (m.get? k).isSome = true := (GoMap.get?_isSome_iff m k).2 (h k (by simp))
    obtain ⟨v, hv⟩ := Option.isSome_iff_exists.1 hk
    have ih' := ih (fun k' hk' => h k' (by simp [hk']))
    simp only [GoMap.range] at ih' ⊢
    simp [List.filterMap_cons, hv, ih']

theorem GoMap.range_fst_mem {V : Type} (m : GoMap V) (order : List String) (k : String)
    (h : k ∈ (m.range order).map Prod.fst) : k ∈ order ∧ ∃ v, m.get? k = some v := by
  simp only [GoMap.range, List.mem_map, List.mem_filterMap] at h
  obtain ⟨⟨k1, v1⟩, ⟨k2, hk2, hopt⟩, rfl⟩ := h
  cases hg : m.get? k2 with
  | none => rw [hg] at hopt; simp at hopt
  | some v =>
    rw [hg] at hopt
    simp only [Option.map_some', Option.some.injEq, Prod.mk.injEq] at hopt
    obtain ⟨rfl, rfl⟩ := hopt
    exact ⟨hk2, v, hg⟩

theorem getAccountDomainLoop_some (domain : String) (ks : List String) (k : String) :
    getAccountDomainLoop domain ks = some k ↔
      ∃ pre post, ks = pre ++ k :: post ∧ HasSuffix domain k = true ∧
        ∀ k' ∈ pre, HasSuffix domain k' = false := by
  induction ks with
  | nil => simp [getAccountDomainLoop]
  | cons a rest ih =>
    by_cases ha : HasSuffix domain a = true
    · simp only [getAccountDomainLoop, ha, if_true, Option.some.injEq]
      constructor
      · rintro rfl
        exact ⟨[], rest, rfl, ha, by simp⟩
      · rintro ⟨pre, post, heq, _, hpre⟩
        cases pre with
        | nil => simpa using (List.cons.inj heq).1
        | cons b pre' =>
          have hb : a = b := (List.cons.inj heq).1
          have := hpre b (by simp)
          rw [← hb, ha] at this
          cases this
    · have ha' : HasSuffix domain a = false := by simpa using ha
      simp only [getAccountDomainLoop, ha', Bool.false_eq_true, if_false, ih]
      constructor
      · rintro ⟨pre, post, rfl, hk, hpre⟩
        refine ⟨a :: pre, post, rfl, hk, ?_⟩
        intro k' hk'
        rcases List.mem_cons.1 hk' with rfl | h
        · exact ha'
        · exact hpre k' h
      · rintro ⟨pre, post, heq, hk, hpre⟩
        cases pre with
        | nil =>
          have : a = k := (List.cons.inj heq).1
          rw [this, hk] at ha'
          cases ha'
        | cons b pre' =>
          refine ⟨pre', post, (List.cons.inj heq).2, hk, ?_⟩
          intro k' hk'
          exact hpre k' (by simp [hk'])

theorem getAccountDomainLoop_none (domain : String) (ks : List String) :
    getAccountDomainLoop domain ks = none ↔ ∀ k ∈ ks, HasSuffix domain k = false := by
  induction ks with
  | nil => simp [getAccountDomainLoop]
  | cons a rest ih =>
    by_cases ha : HasSuffix domain a = true
    · simp [getAccountDomainLoop, ha]
    · have ha' : HasSuffix domain a = false := by simpa using ha
      simp [getAccountDomainLoop, ha', ih]

theorem getAccountDomain_ok_iff (d : DNSProvider) (order : List String) (domain k : String) :
    getAccountDomain d order domain = .ok k ↔
      getAccountDomainLoop domain ((d.clients.range order).map Prod.fst) = some k := by
  unfold getAccountDomain
  cases h : getAccountDomainLoop domain ((d.clients.range order).map Prod.fst) <;> simp

theorem getAccountDomain_error_iff (d : DNSProvider) (order : List String) (domain : String) :
    (∃ err, getAccountDomain d order domain = .error err) ↔
      getAccountDomainLoop domain ((d.clients.range order).map Prod.fst) = none := by
  unfold getAccountDomain
  cases h : getAccountDomainLoop domain ((d.clients.range order).map Prod.fst) <;> simp

theorem getAccountDomain_client (d : DNSProvider) (order : List String) (domain k : String)
    (h : getAccountDomain d order domain = .ok k) :
    HasSuffix domain k = true ∧ ∃ client, d.clients.get? k = some client := by
  rw [getAccountDomain_ok_iff, getAccountDomainLoop_some] at h
  obtain ⟨pre, post, heq, hk, _⟩ := h
  refine ⟨hk, ?_⟩
  have hmem : k ∈ (d.clients.range order).map Prod.fst := by rw [heq]; simp
  exact (GoMap.range_fst_mem _ _ _ hmem).2

/-! ## Routing -/

/-- Claim C1: for every routing table, every order in which the `range` enumerates its
keys and every domain, `getAccountDomain` succeeds exactly when some key of the table is
a suffix of the domain; a returned string is a key of the table and a suffix of the
domain; and when no key is a suffix of the domain the result is an error. -/
theorem getAccountDomain_succeeds_iff (d : DNSProvider) (order : List String)
    (domain : String) (horder : order.Perm d.clients.keys) :
    ((∃ k, getAccountDomain d order domain = .ok k) ↔
        ∃ k ∈ d.clients.keys, ∃ p : String, domain = p ++ k) ∧
      (∀ k, getAccountDomain d order domain = .ok k →
        k ∈ d.clients.keys ∧ ∃ p : String, domain = p ++ k) ∧
      ((¬ ∃ k ∈ d.clients.keys, ∃ p : String, domain = p ++ k) →
        ∃ err, getAccountDomain d order domain = .error err) := by
  have hfst : (d.clients.range order).map Prod.fst = order :=
    GoMap.range_fst _ _ (fun k hk => horder.mem_iff.1 hk)
  have hok : ∀ k, getAccountDomain d order domain = .ok k →
      k ∈ d.clients.keys ∧ ∃ p : String, domain = p ++ k := by
    intro k hk
    rw [getAccountDomain_ok_iff, hfst, getAccountDomainLoop_some] at hk
    obtain ⟨pre, post, heq, hsuf, _⟩ := hk
    exact ⟨horder.mem_iff.1 (by rw [heq]; simp), (HasSuffix_iff _ _).1 hsuf⟩
  have hnone : (¬ ∃ k ∈ d.clients.keys, ∃ p : String, domain = p ++ k) →
      ∃ err, getAccountDomain d order domain = .error err := by
    intro hno
    rw [getAccountDomain_error_iff, hfst, getAccountDomainLoop_none]
    intro k hk
    by_contra hs
    have hs' : HasSuffix domain k = true := by simpa using hs
    exact hno ⟨k, horder.mem_iff.1 hk, (HasSuffix_iff _ _).1 hs'⟩
  refine ⟨⟨?_, ?_⟩, hok, hnone⟩
  · rintro ⟨k, hk⟩
    exact ⟨k, hok k hk⟩
  · intro hex
    by_contra hno
    have herr : ∃ err, getAccountDomain d order domain = .error err := by
      rw [getAccountDomain_error_iff]
      cases hl : getAccountDomainLoop domain ((d.clients.range order).map Prod.fst) with
      | none => rfl
      | some k => exact absurd ⟨k, (getAccountDomain_ok_iff _ _ _ _).2 hl⟩ hno
    rw [getAccountDomain_error_iff, hfst, getAccountDomainLoop_none] at herr
    obtain ⟨k, hk, hp⟩ := hex
    have := herr k (horder.mem_iff.2 hk)
    rw [(HasSuffix_iff _ _).2 hp] at this
    cases this

/-- Witness of C1 on the table with keys `example.com` and `sub.example.com`. -/
theorem getAccountDomain_succeeds_iff_witness :
    ["sub.example.com", "example.com"].Perm overlapProvider.clients.keys ∧
      ((∃ k, getAccountDomain overlapProvider ["sub.example.com", "example.com"]
          "www.example.com" = .ok k) ↔
        ∃ k ∈ overlapProvider.clients.keys, ∃ p : String, "www.example.com" = p ++ k) :=
  ⟨by decide,
    (getAccountDomain_succeeds_iff overlapProvider ["sub.example.com", "example.com"]
      "www.example.com" (by decide)).1⟩

/-- Counterexample to C2: with the keys `example.com` and `sub.example.com`, a `range`
that visits `example.com` first resolves `a.sub.example.com` to `example.com`, although
the longer key `sub.example.com` matches as well. -/
theorem getAccountDomain_not_longest :
    ["example.com", "sub.example.com"].Perm overlapProvider.clients.keys ∧
      getAccountDomain overlapProvider ["example.com", "sub.example.com"]
        "a.sub.example.com" = .ok "example.com" ∧
      "sub.example.com" ∈ overlapProvider.clients.keys ∧
      HasSuffix "a.sub.example.com" "sub.example.com" = true ∧
      "example.com".length < "sub.example.com".length := by
  refine ⟨by decide, by rfl, by decide, by decide, by decide⟩

/-- Claim C2 as amended: `getAccountDomain` returns the first key, in the order in which
the `range` visits the keys, that is a suffix of the domain; so it returns a given
matching key (for instance the longest one) whenever no key visited before it matches,
and in particular when it is the only matching key. -/
theorem getAccountDomain_first_match (d : DNSProvider) (order : List String)
    (domain : String) (horder : order.Perm d.clients.keys) :
    (∀ k, getAccountDomain d order domain = .ok k ↔
        ∃ pre post, order = pre ++ k :: post ∧ HasSuffix domain k = true ∧
          ∀ k' ∈ pre, HasSuffix domain k' = false) ∧
      (∀ k ∈ d.clients.keys, HasSuffix domain k = true →
        (∀ k' ∈ d.clients.keys, HasSuffix domain k' = true → k' = k) →
        getAccountDomain d order domain = .ok k) := by
  have hfst : (d.clients.range order).map Prod.fst = order :=
    GoMap.range_fst _ _ (fun k hk => horder.mem_iff.1 hk)
  have hfirst : ∀ k, getAccountDomain d order domain = .ok k ↔
      ∃ pre post, order = pre ++ k :: post ∧ HasSuffix domain k = true ∧
        ∀ k' ∈ pre, HasSuffix domain k' = false := by
    intro k
    rw [getAccountDomain_ok_iff, hfst, getAccountDomainLoop_some]
  refine ⟨hfirst, ?_⟩
  intro k hk hsuf honly
  rw [hfirst]
  obtain ⟨pre, post, heq⟩ := List.append_of_mem (horder.mem_iff.2 hk)
  -- take the first occurrence of a matching key
  cases hl : getAccountDomainLoop domain order with
  | none =>
    have := (getAccountDomainLoop_none domain order).1 hl k (horder.mem_iff.2 hk)
    rw [hsuf] at this
    cases this
  | some k1 =>
    obtain ⟨pre1, post1, heq1, hs1, hpre1⟩ := (getAccountDomainLoop_some domain order k1).1 hl
    have hk1 : k1 = k := honly k1 (horder.mem_iff.1 (by rw [heq1]; simp)) hs1
    subst hk1
    exact ⟨pre1, post1, heq1, hs1, hpre1⟩

/-- Witness of the amended C2: a `range` that visits `sub.example.com` first resolves
`a.sub.example.com` to it. -/
theorem getAccountDomain_first_match_witness :
    ["sub.example.com", "example.com"].Perm overlapProvider.clients.keys ∧
      (getAccountDomain overlapProvider ["sub.example.com", "example.com"]
          "a.sub.example.com" = .ok "sub.example.com" ↔
        ∃ pre post, ["sub.example.com", "example.com"] = pre ++ "sub.example.com" :: post ∧
          HasSuffix "a.sub.example.com" "sub.example.com" = true ∧
          ∀ k' ∈ pre, HasSuffix "a.sub.example.com" k' = false) :=
  ⟨by decide,
    (getAccountDomain_first_match overlapProvider ["sub.example.com", "example.com"]
      "a.sub.example.com" (by decide)).1 "sub.example.com"⟩

/-! ## The session protocol -/

section ProtocolFacts

variable {σ : Type}

theorem Present_open (env : Env) (w : Remote σ) (d : DNSProvider) (order : List String)
    (now : Nat) (domain keyAuth : String) (s : σ)
    (k authZone : String) (client : Client) (info : LoginResponse) (s1 : σ)
    (hroute : getAccountDomain d order domain = .ok k)
    (hzone : env.FindZoneByFqdn (env.GetRecord domain keyAuth).1 = .ok authZone)
    (hclient : d.clients.get? k = some client)
    (hlogin : w.Login client s = (.ok info, s1)) :
    Present env w d order now domain keyAuth s =
      ⟨(presentBody env w d now client info k authZone (env.GetRecord domain keyAuth).1
          (env.GetRecord domain keyAuth).2 s1).result,
        (w.Logout client (presentBody env w d now client info k authZone
          (env.GetRecord domain keyAuth).1 (env.GetRecord domain keyAuth).2 s1).state).2,
        Call.Login client :: ((presentBody env w d now client info k authZone
          (env.GetRecord domain keyAuth).1 (env.GetRecord domain keyAuth).2 s1).trace
            ++ [Call.Logout client])⟩ := by
  simp [Present, hroute, hzone, hclient, hlogin, deferredLogout]

theorem CleanUp_open (env : Env) (w : Remote σ) (d : DNSProvider) (order : List String)
    (now : Nat) (domain keyAuth : String) (s : σ)
    (k authZone : String) (client : Client) (info : LoginResponse) (s1 : σ)
    (hroute : getAccountDomain d order domain = .ok k)
    (hzone : env.FindZoneByFqdn (env.GetRecord domain keyAuth).1 = .ok authZone)
    (hclient : d.clients.get? k = some client)
    (hlogin : w.Login client s = (.ok info, s1)) :
    CleanUp env w d order now domain keyAuth s =
      ⟨(cleanUpBody env w d now client info k authZone
          (env.GetRecord domain keyAuth).1 s1).result,
        (w.Logout client (cleanUpBody env w d now client info k authZone
          (env.GetRecord domain keyAuth).1 s1).state).2,
        Call.Login client :: ((cleanUpBody env w d now client info k authZone
          (env.GetRecord domain keyAuth).1 s1).trace ++ [Call.Logout client])⟩ := by
  simp [CleanUp, hroute, hzone, hclient, hlogin, deferredLogout]

theorem logoutCount_nil : logoutCount [] = 0 := rfl

theorem logoutCount_append (a b : List Call) :
    logoutCount (a ++ b) = logoutCount a + logoutCount b := by
  simp [logoutCount]

theorem twoFactorAuth_trace (env : Env) (w : Remote σ) (d : DNSProvider) (now : Nat)
    (client : Client) (info : LoginResponse) (k : String) (s : σ) :
    logoutCount (twoFactorAuth env w d now client info k s).2.2 = 0 := by
  unfold twoFactorAuth
  split
  · rfl
  · split
    · rfl
    · split <;> rfl

theorem deleteLoop_trace (w : Remote σ) (client : Client) (records : List NameserverRecord)
    (lastErr : Option GoError) (s : σ) :
    (deleteLoop w client records lastErr s).2.2 =
      records.map (fun r => Call.DeleteRecord client r.ID) := by
  induction records generalizing lastErr s with
  | nil => rfl
  | cons r rest ih =>
    simp only [deleteLoop, List.map_cons]
    cases (w.DeleteRecord client r.ID s).1 <;> simp [ih]

theorem logoutCount_deletes (client : Client) (records : List NameserverRecord) :
    logoutCount (records.map (fun r => Call.DeleteRecord client r.ID)) = 0 := by
  induction records with
  | nil => rfl
  | cons r rest ih => simp [logoutCount]

theorem presentBody_logoutCount (env : Env) (w : Remote σ) (d : DNSProvider) (now : Nat)
    (client : Client) (info : LoginResponse) (k authZone fqdn value : String) (s : σ) :
    logoutCount (presentBody env w d now client info k authZone fqdn value s).trace = 0 := by
  have h2 := twoFactorAuth_trace env w d now client info k s
  unfold presentBody
  rcases h : twoFactorAuth env w d now client info k s with ⟨r, s2, tr⟩
  rw [h] at h2
  cases r with
  | some err => simpa using h2
  | none =>
    simp only
    rcases hc : w.CreateRecord client (presentRequest env d authZone fqdn value) s2 with ⟨res, s3⟩
    cases res <;> simp only [logoutCount_append] <;> simpa [logoutCount] using h2

theorem cleanUpBody_logoutCount (env : Env) (w : Remote σ) (d : DNSProvider) (now : Nat)
    (client : Client) (info : LoginResponse) (k authZone fqdn : String) (s : σ) :
    logoutCount (cleanUpBody env w d now client info k authZone fqdn s).trace = 0 := by
  have h2 := twoFactorAuth_trace env w d now client info k s
  unfold cleanUpBody
  rcases h : twoFactorAuth env w d now client info k s with ⟨r, s2, tr⟩
  rw [h] at h2
  cases r with
  | some err => simpa using h2
  | none =>
    simp only
    rcases hc : w.Info client (infoRequest env authZone fqdn) s2 with ⟨res, s3⟩
    cases res with
    | error err => simp only [logoutCount_append]; simpa [logoutCount] using h2
    | ok response =>
      simp only [deleteLoop_trace]
      have hd := logoutCount_deletes client response.Records
      have : logoutCount [Call.Info client (infoRequest env authZone fqdn)] = 0 := rfl
      rw [← List.singleton_append, logoutCount_append, logoutCount_append, h2, this, hd]

theorem deleteLoop_result (w : Remote σ) (client : Client) (records : List NameserverRecord)
    (lastErr : Option GoError) (s : σ) :
    ((∀ r ∈ deleteResults w client (records.map (fun r => r.ID)) s, r = none) →
        (deleteLoop w client records lastErr s).1 = lastErr) ∧
      (∀ pre e post,
        deleteResults w client (records.map (fun r => r.ID)) s = pre ++ some e :: post →
        (∀ r ∈ post, r = none) →
        (deleteLoop w client records lastErr s).1 = some (wrapErr e)) := by
  induction records generalizing lastErr s with
  | nil =>
    refine ⟨fun _ => rfl, ?_⟩
    intro pre e post h
    simp [deleteResults] at h
  | cons r rest ih =>
    simp only [deleteLoop, List.map_cons, deleteResults]
    cases hr : (w.DeleteRecord client r.ID s).1 with
    | none =>
      refine ⟨fun hall => (ih lastErr _).1 (fun x hx => hall x (by simp [hx])), ?_⟩
      intro pre e post h hpost
      cases pre with
      | nil => simp at h
      | cons a pre' =>
        simp only [List.cons_append, List.cons.injEq] at h
        exact (ih lastErr _).2 pre' e post h.2 hpost
    | some err =>
      refine ⟨fun hall => by simpa using hall (some err) (by simp), ?_⟩
      intro pre e post h hpost
      cases pre with
      | nil =>
        simp only [List.nil_append, List.cons.injEq, Option.some.injEq] at h
        obtain ⟨rfl, hrest⟩ := h
        exact (ih (some (wrapErr err)) _).1 (by rw [hrest]; exact hpost)
      | cons a pre' =>
        simp only [List.cons_append, List.cons.injEq] at h
        exact (ih (some (wrapErr err)) _).2 pre' e post h.2 hpost

theorem exists_last_failure (rs : List (Option GoError)) (h : ¬ ∀ r ∈ rs, r = none) :
    ∃ pre e post, rs = pre ++ some e :: post ∧ ∀ r ∈ post, r = none := by
  induction rs with
  | nil => simp at h
  | cons a rest ih =>
    by_cases hrest : ∀ r ∈ rest, r = none
    · cases a with
      | none =>
        exfalso
        apply h
        intro r hr
        rcases List.mem_cons.1 hr with rfl | hr
        · rfl
        · exact hrest r hr
      | some e => exact ⟨[], e, rest, rfl, hrest⟩
    · obtain ⟨pre, e, post, heq, hpost⟩ := ih hrest
      exact ⟨a :: pre, e, post, by rw [heq]; rfl, hpost⟩

end ProtocolFacts

section ProtocolClaims

variable {σ : Type}

/-- Claim C3: in a `Present` call in which routing, the zone lookup, the login and the
two-factor step succeed, a `CreateRecord` that fails with a `goinwx.ErrorResponse` whose
message is `Object exists` makes `Present` return nil; a `CreateRecord` that fails with
any other error makes `Present` return that error, wrapped; and a `CreateRecord` that
succeeds makes `Present` return nil. -/
theorem Present_create_result (env : Env) (w : Remote σ) (d : DNSProvider)
    (order : List String) (now : Nat) (domain keyAuth : String) (s : σ)
    (k authZone : String) (client : Client) (info : LoginResponse) (s1 s2 : σ)
    (tr : List Call)
    (hroute : getAccountDomain d order domain = .ok k)
    (hzone : env.FindZoneByFqdn (env.GetRecord domain keyAuth).1 = .ok authZone)
    (hclient : d.clients.get? k = some client)
    (hlogin : w.Login client s = (.ok info, s1))
    (h2fa : twoFactorAuth env w d now client info k s1 = (none, s2, tr)) :
    (∀ code s3,
        w.CreateRecord client (presentRequest env d authZone (env.GetRecord domain keyAuth).1
          (env.GetRecord domain keyAuth).2) s2
          = (.error (.errorResponse code "Object exists"), s3) →
        (Present env w d order now domain keyAuth s).result = .returned none) ∧
      (∀ err s3,
        w.CreateRecord client (presentRequest env d authZone (env.GetRecord domain keyAuth).1
          (env.GetRecord domain keyAuth).2) s2 = (.error err, s3) →
        (∀ code, err ≠ .errorResponse code "Object exists") →
        (Present env w d order now domain keyAuth s).result = .returned (some (wrapErr err))) ∧
      (∀ recID s3,
        w.CreateRecord client (presentRequest env d authZone (env.GetRecord domain keyAuth).1
          (env.GetRecord domain keyAuth).2) s2 = (.ok recID, s3) →
        (Present env w d order now domain keyAuth s).result = .returned none) := by
  have hopen := Present_open env w d order now domain keyAuth s
    k authZone client info s1 hroute hzone hclient hlogin
  refine ⟨?_, ?_, ?_⟩
  · intro code s3 hc
    simp [hopen, presentBody, h2fa, hc, createError]
  · intro err s3 hc hne
    have hce : createError err = some (wrapErr err) := by
      cases err with
      | errorResponse code message =>
        have hm : message ≠ "Object exists" := fun e => hne code (by rw [e])
        simp [createError, hm]
      | plain text => rfl
      | wrap pre inner => rfl
    simp [hopen, presentBody, h2fa, hc, hce]
  · intro recID s3 hc
    simp [hopen, presentBody, h2fa, hc]

/-- Claim C4: in a `Present` or `CleanUp` call whose login response has
`TFA == "GOOGLE-AUTH"` while the shared secret stored for the resolved key is empty, the
call returns a non-nil error, and the only requests it sends are the `Login` and the
`Logout`: no `Unlock`, `CreateRecord`, `Info` or `DeleteRecord` request is sent. -/
theorem twoFactor_without_secret (env : Env) (w : Remote σ) (d : DNSProvider)
    (order : List String) (now : Nat) (domain keyAuth : String) (s : σ)
    (k authZone : String) (client : Client) (info : LoginResponse) (s1 : σ)
    (hroute : getAccountDomain d order domain = .ok k)
    (hzone : env.FindZoneByFqdn (env.GetRecord domain keyAuth).1 = .ok authZone)
    (hclient : d.clients.get? k = some client)
    (hlogin : w.Login client s = (.ok info, s1))
    (htfa : info.TFA = "GOOGLE-AUTH")
    (hsecret : sharedSecret d k = "") :
    ((∃ err, (Present env w d order now domain keyAuth s).result = .returned (some err)) ∧
        (Present env w d order now domain keyAuth s).trace
          = [Call.Login client, Call.Logout client] ∧
        ∀ c ∈ (Present env w d order now domain keyAuth s).trace, c.afterTwoFactor = false) ∧
      ((∃ err, (CleanUp env w d order now domain keyAuth s).result = .returned (some err)) ∧
        (CleanUp env w d order now domain keyAuth s).trace
          = [Call.Login client, Call.Logout client] ∧
        ∀ c ∈ (CleanUp env w d order now domain keyAuth s).trace, c.afterTwoFactor = false) := by
  have h2fa : twoFactorAuth env w d now client info k s1 =
      (some (.plain "two factor authentication but no shared secret is given"), s1, []) := by
    simp [twoFactorAuth, htfa, hsecret]
  have hP := Present_open env w d order now domain keyAuth s
    k authZone client info s1 hroute hzone hclient hlogin
  have hC := CleanUp_open env w d order now domain keyAuth s
    k authZone client info s1 hroute hzone hclient hlogin
  have hPt : (Present env w d order now domain keyAuth s).trace
      = [Call.Login client, Call.Logout client] := by
    simp [hP, presentBody, h2fa]
  have hCt : (CleanUp env w d order now domain keyAuth s).trace
      = [Call.Login client, Call.Logout client] := by
    simp [hC, cleanUpBody, h2fa]
  refine ⟨⟨?_, hPt, ?_⟩, ⟨?_, hCt, ?_⟩⟩
  · exact ⟨wrapErr (.plain "two factor authentication but no shared secret is given"),
      by simp [hP, presentBody, h2fa]⟩
  · rw [hPt]
    intro c hc
    simp only [List.mem_cons, List.mem_singleton, List.not_mem_nil, or_false] at hc
    rcases hc with rfl | rfl <;> rfl
  · exact ⟨wrapErr (.plain "two factor authentication but no shared secret is given"),
      by simp [hC, cleanUpBody, h2fa]⟩
  · rw [hCt]
    intro c hc
    simp only [List.mem_cons, List.mem_singleton, List.not_mem_nil, or_false] at hc
    rcases hc with rfl | rfl <;> rfl

/-- Claim C5 as amended: in a `Present` or `CleanUp` call in which routing, the zone
lookup and the login succeed, `Logout` is sent exactly once, as the last request,
whatever the two-factor step and the record operations do; in a call in which routing,
the zone lookup or the login fails, `Logout` is not sent. -/
theorem logout_once_after_login (env : Env) (w : Remote σ) (d : DNSProvider)
    (order : List String) (now : Nat) (domain keyAuth : String) (s : σ) :
    (∀ err, getAccountDomain d order domain = .error err →
        logoutCount (Present env w d order now domain keyAuth s).trace = 0 ∧
        logoutCount (CleanUp env w d order now domain keyAuth s).trace = 0) ∧
      (∀ k err, getAccountDomain d order domain = .ok k →
        env.FindZoneByFqdn (env.GetRecord domain keyAuth).1 = .error err →
        logoutCount (Present env w d order now domain keyAuth s).trace = 0 ∧
        logoutCount (CleanUp env w d order now domain keyAuth s).trace = 0) ∧
      (∀ k authZone client err s1, getAccountDomain d order domain = .ok k →
        env.FindZoneByFqdn (env.GetRecord domain keyAuth).1 = .ok authZone →
        d.clients.get? k = some client →
        w.Login client s = (.error err, s1) →
        logoutCount (Present env w d order now domain keyAuth s).trace = 0 ∧
        logoutCount (CleanUp env w d order now domain keyAuth s).trace = 0) ∧
      (∀ k authZone client info s1, getAccountDomain d order domain = .ok k →
        env.FindZoneByFqdn (env.GetRecord domain keyAuth).1 = .ok authZone →
        d.clients.get? k = some client →
        w.Login client s = (.ok info, s1) →
        (logoutCount (Present env w d order now domain keyAuth s).trace = 1 ∧
          (Present env w d order now domain keyAuth s).trace.getLast?
            = some (Call.Logout client)) ∧
        (logoutCount (CleanUp env w d order now domain keyAuth s).trace = 1 ∧
          (CleanUp env w d order now domain keyAuth s).trace.getLast?
            = some (Call.Logout client))) := by
  refine ⟨?_, ?_, ?_, ?_⟩
  · intro err hroute
    simp [Present, CleanUp, hroute, logoutCount]
  · intro k err hroute hzone
    simp [Present, CleanUp, hroute, hzone, logoutCount]
  · intro k authZone client err s1 hroute hzone hclient hlogin
    simp [Present, CleanUp, hroute, hzone, hclient, hlogin, logoutCount]
  · intro k authZone client info s1 hroute hzone hclient hlogin
    have hP := Present_open env w d order now domain keyAuth s
      k authZone client info s1 hroute hzone hclient hlogin
    have hC := CleanUp_open env w d order now domain keyAuth s
      k authZone client info s1 hroute hzone hclient hlogin
    have h1 : logoutCount [Call.Login client] = 0 := rfl
    have h2 : logoutCount [Call.Logout client] = 1 := rfl
    refine ⟨⟨?_, ?_⟩, ⟨?_, ?_⟩⟩
    · rw [hP]
      simp only
      rw [← List.singleton_append, logoutCount_append, logoutCount_append, h1, h2,
        presentBody_logoutCount]
    · rw [hP]
      simp only
      rw [← List.cons_append, List.getLast?_append]
      rfl
    · rw [hC]
      simp only
      rw [← List.singleton_append, logoutCount_append, logoutCount_append, h1, h2,
        cleanUpBody_logoutCount]
    · rw [hC]
      simp only
      rw [← List.cons_append, List.getLast?_append]
      rfl

/-- Claim C6: in a `CleanUp` call in which routing, the zone lookup, the login, the
two-factor step and the record lookup succeed, the requests after `Info` are one
`DeleteRecord` per returned record, with its ID and in list order, followed by the
`Logout`, whether or not earlier deletions failed; `CleanUp` returns nil exactly when
every deletion succeeded; and when a deletion failed it returns the wrapped error of the
last deletion that failed. -/
theorem CleanUp_deletes_all (env : Env) (w : Remote σ) (d : DNSProvider)
    (order : List String) (now : Nat) (domain keyAuth : String) (s : σ)
    (k authZone : String) (client : Client) (info : LoginResponse) (s1 s2 s3 : σ)
    (tr : List Call) (response : NamserverInfoResponse)
    (hroute : getAccountDomain d order domain = .ok k)
    (hzone : env.FindZoneByFqdn (env.GetRecord domain keyAuth).1 = .ok authZone)
    (hclient : d.clients.get? k = some client)
    (hlogin : w.Login client s = (.ok info, s1))
    (h2fa : twoFactorAuth env w d now client info k s1 = (none, s2, tr))
    (hinfo : w.Info client (infoRequest env authZone (env.GetRecord domain keyAuth).1) s2
      = (.ok response, s3)) :
    (CleanUp env w d order now domain keyAuth s).trace =
        Call.Login client :: (tr ++
          Call.Info client (infoRequest env authZone (env.GetRecord domain keyAuth).1) ::
          (response.Records.map (fun r => Call.DeleteRecord client r.ID)
            ++ [Call.Logout client])) ∧
      ((CleanUp env w d order now domain keyAuth s).result = .returned none ↔
        ∀ r ∈ deleteResults w client (response.Records.map (fun r => r.ID)) s3, r = none) ∧
      (∀ pre e post,
        deleteResults w client (response.Records.map (fun r => r.ID)) s3
          = pre ++ some e :: post →
        (∀ r ∈ post, r = none) →
        (CleanUp env w d order now domain keyAuth s).result
          = .returned (some (wrapErr e))) := by
  have hC := CleanUp_open env w d order now domain keyAuth s
    k authZone client info s1 hroute hzone hclient hlogin
  have hres : (CleanUp env w d order now domain keyAuth s).result =
      .returned (deleteLoop w client response.Records none s3).1 := by
    simp [hC, cleanUpBody, h2fa, hinfo]
  have hloop := deleteLoop_result w client response.Records none s3
  refine ⟨?_, ⟨?_, ?_⟩, ?_⟩
  · simp [hC, cleanUpBody, h2fa, hinfo, deleteLoop_trace]
  · intro h
    by_contra hall
    obtain ⟨pre, e, post, heq, hpost⟩ := exists_last_failure _ hall
    rw [hres, hloop.2 pre e post heq hpost] at h
    cases h
  · intro hall
    rw [hres, hloop.1 hall]
  · intro pre e post heq hpost
    rw [hres, hloop.2 pre e post heq hpost]

end ProtocolClaims

/-! ## The session protocol on the test backend -/

/-- Witness of C3: the backend answers `CreateRecord` with the error response
`Object exists`, and `Present` returns nil. -/
theorem Present_create_result_witness :
    (fakeRemote ⟨"", some (.errorResponse 2302 "Object exists"), []⟩).CreateRecord
        ⟨"user1", "password1", false⟩
        (presentRequest testEnv overlapProvider "example.com."
          (testEnv.GetRecord "www.example.com" "token").1
          (testEnv.GetRecord "www.example.com" "token").2) []
        = (.error (.errorResponse 2302 "Object exists"), []) ∧
      (Present testEnv (fakeRemote ⟨"", some (.errorResponse 2302 "Object exists"), []⟩)
        overlapProvider ["example.com", "sub.example.com"] 0 "www.example.com" "token"
        []).result = .returned none :=
  ⟨by rfl,
    (Present_create_result testEnv
      (fakeRemote ⟨"", some (.errorResponse 2302 "Object exists"), []⟩)
      overlapProvider ["example.com", "sub.example.com"] 0 "www.example.com" "token" []
      "example.com" "example.com." ⟨"user1", "password1", false⟩ ⟨""⟩ [] [] []
      (by rfl) (by rfl) (by rfl) (by rfl) (by rfl)).1 2302 [] (by rfl)⟩

/-- Witness of C4: every login response asks for the second factor, the key
`sub.example.com` has no shared secret, and `Present` sends only `Login` and `Logout`. -/
theorem twoFactor_without_secret_witness :
    sharedSecret overlapProvider "sub.example.com" = "" ∧
      (Present testEnv (fakeRemote ⟨"GOOGLE-AUTH", none, []⟩) overlapProvider
        ["sub.example.com", "example.com"] 0 "a.sub.example.com" "token" []).trace
        = [Call.Login ⟨"user2", "password2", false⟩, Call.Logout ⟨"user2", "password2", false⟩] :=
  ⟨by rfl,
    (twoFactor_without_secret testEnv (fakeRemote ⟨"GOOGLE-AUTH", none, []⟩) overlapProvider
      ["sub.example.com", "example.com"] 0 "a.sub.example.com" "token" []
      "sub.example.com" "example.com." ⟨"user2", "password2", false⟩ ⟨"GOOGLE-AUTH"⟩ []
      (by rfl) (by rfl) (by rfl) (by rfl) (by rfl) (by rfl)).1.2.1⟩

/-- Counterexample to C5: no key of the table is a suffix of `example.org`, so routing
fails, and neither `Present` nor `CleanUp` sends a `Logout` (or any other request). -/
theorem logout_not_sent_on_routing_failure :
    (Present testEnv (fakeRemote ⟨"", none, []⟩) overlapProvider
        ["example.com", "sub.example.com"] 0 "example.org" "token" []).result
        = .returned (some (wrapErr
            (.plain "inwx-multi: no account configuration for example.org"))) ∧
      logoutCount (Present testEnv (fakeRemote ⟨"", none, []⟩) overlapProvider
        ["example.com", "sub.example.com"] 0 "example.org" "token" []).trace = 0 ∧
      logoutCount (CleanUp testEnv (fakeRemote ⟨"", none, []⟩) overlapProvider
        ["example.com", "sub.example.com"] 0 "example.org" "token" []).trace = 0 := by
  refine ⟨by rfl, by rfl, by rfl⟩

/-- Witness of the amended C5: on the success path of `Present` the `Logout` is sent
once. -/
theorem logout_once_after_login_witness :
    (fakeRemote ⟨"", none, []⟩).Login ⟨"user1", "password1", false⟩ [] = (.ok ⟨""⟩, []) ∧
      logoutCount (Present testEnv (fakeRemote ⟨"", none, []⟩) overlapProvider
        ["example.com", "sub.example.com"] 0 "www.example.com" "token" []).trace = 1 :=
  ⟨by rfl,
    ((logout_once_after_login testEnv (fakeRemote ⟨"", none, []⟩) overlapProvider
      ["example.com", "sub.example.com"] 0 "www.example.com" "token" []).2.2.2
      "example.com" "example.com." ⟨"user1", "password1", false⟩ ⟨""⟩ []
      (by rfl) (by rfl) (by rfl) (by rfl)).1.1⟩

/-- Witness of C6: three records are found and the deletion of the second one fails;
the first and the third are deleted all the same, and `CleanUp` returns the error of the
second deletion. -/
theorem CleanUp_deletes_all_witness :
    (CleanUp testEnv (fakeRemote ⟨"", none, [2]⟩) overlapProvider
        ["example.com", "sub.example.com"] 0 "example.com" "token" threeRecords).trace
        = [Call.Login ⟨"user1", "password1", false⟩,
           Call.Info ⟨"user1", "password1", false⟩
             ⟨"example.com", "_acme-challenge.example.com", "TXT"⟩,
           Call.DeleteRecord ⟨"user1", "password1", false⟩ 1,
           Call.DeleteRecord ⟨"user1", "password1", false⟩ 2,
           Call.DeleteRecord ⟨"user1", "password1", false⟩ 3,
           Call.Logout ⟨"user1", "password1", false⟩] ∧
      (CleanUp testEnv (fakeRemote ⟨"", none, [2]⟩) overlapProvider
        ["example.com", "sub.example.com"] 0 "example.com" "token" threeRecords).result
        = .returned (some (wrapErr (.errorResponse 2303 "Object does not exist"))) ∧
      (CleanUp testEnv (fakeRemote ⟨"", none, [2]⟩) overlapProvider
        ["example.com", "sub.example.com"] 0 "example.com" "token" threeRecords).state
        = [("example.com", ⟨2, "_acme-challenge.example.com", "TXT", "v2", 300⟩)] :=
  have h := CleanUp_deletes_all testEnv (fakeRemote ⟨"", none, [2]⟩) overlapProvider
    ["example.com", "sub.example.com"] 0 "example.com" "token" threeRecords
    "example.com" "example.com." ⟨"user1", "password1", false⟩ ⟨""⟩
    threeRecords threeRecords threeRecords [] ⟨threeRecords.map Prod.snd⟩
    (by rfl) (by rfl) (by rfl) (by rfl) (by rfl) (by rfl)
  ⟨h.1, h.2.2 [none] (.errorResponse 2303 "Object does not exist") [none] (by rfl)
      (by simp), by rfl⟩

/-! ## Present followed by CleanUp -/

section RoundTrip

variable {σ : Type}

theorem fakeRemote_faithful (tfa : String) :
    FaithfulBackend (fakeRemote ⟨tfa, none, []⟩) id := by
  constructor
  · intro c s
    exact ⟨⟨⟨tfa⟩, rfl⟩, rfl⟩
  · intro c s
    exact ⟨rfl, rfl⟩
  · intro c tan s
    exact ⟨rfl, rfl⟩
  · intro c req s
    refine ⟨freshID s, rfl, ?_⟩
    intro e
    simp [fakeRemote]
  · intro c req s
    refine ⟨⟨_, rfl, ?_⟩, rfl⟩
    intro r
    simp only [fakeRemote, List.mem_map, List.mem_filter, decide_eq_true_eq, id]
    constructor
    · rintro ⟨⟨z, r'⟩, ⟨hmem, hz, hn, ht⟩, rfl⟩
      simp only at hz hn ht
      subst hz
      exact ⟨hmem, hn, ht⟩
    · rintro ⟨hmem, hn, ht⟩
      exact ⟨(req.Domain, r), ⟨hmem, rfl, hn, ht⟩, rfl⟩
  · intro c recID s
    refine ⟨by simp [fakeRemote], ?_⟩
    intro e
    simp [fakeRemote]

theorem twoFactorAuth_faithful (env : Env) (w : Remote σ) (store : σ → Store)
    (d : DNSProvider) (now : Nat) (client : Client) (info : LoginResponse) (k : String)
    (s : σ) (hf : FaithfulBackend w store)
    (hready : info.TFA = "GOOGLE-AUTH" →
      sharedSecret d k ≠ "" ∧ ∃ tan, env.GenerateCode (sharedSecret d k) now = .ok tan) :
    (twoFactorAuth env w d now client info k s).1 = none ∧
      store (twoFactorAuth env w d now client info k s).2.1 = store s := by
  unfold twoFactorAuth
  by_cases htfa : info.TFA = "GOOGLE-AUTH"
  · obtain ⟨hsec, tan, htan⟩ := hready htfa
    simp only [htfa, ne_eq, not_true_eq_false, if_false, hsec, htan]
    exact hf.unlock client tan s
  · simp [htfa]

theorem deleteLoop_faithful (w : Remote σ) (store : σ → Store) (hf : FaithfulBackend w store)
    (client : Client) (records : List NameserverRecord) (lastErr : Option GoError) (s : σ) :
    (deleteLoop w client records lastErr s).1 = lastErr ∧
      ∀ e, e ∈ store (deleteLoop w client records lastErr s).2.1 ↔
        (e ∈ store s ∧ ∀ r ∈ records, e.2.ID ≠ r.ID) := by
  induction records generalizing lastErr s with
  | nil => simp [deleteLoop]
  | cons r rest ih =>
    obtain ⟨hnone, hstore⟩ := hf.delete client r.ID s
    simp only [deleteLoop, hnone]
    refine ⟨(ih lastErr _).1, ?_⟩
    intro e
    rw [(ih lastErr _).2 e, hstore e]
    simp only [List.mem_cons, forall_eq_or_imp]
    tauto

theorem presentBody_faithful (env : Env) (w : Remote σ) (store : σ → Store)
    (d : DNSProvider) (now : Nat) (client : Client) (info : LoginResponse)
    (k authZone fqdn value : String) (s : σ) (hf : FaithfulBackend w store)
    (hready : info.TFA = "GOOGLE-AUTH" →
      sharedSecret d k ≠ "" ∧ ∃ tan, env.GenerateCode (sharedSecret d k) now = .ok tan) :
    (presentBody env w d now client info k authZone fqdn value s).result = .returned none ∧
      ∃ recID, (env.UnFqdn authZone,
          (⟨recID, env.UnFqdn fqdn, "TXT", value, d.config.TTL⟩ : NameserverRecord)) ∈
        store (presentBody env w d now client info k authZone fqdn value s).state := by
  obtain ⟨h1, h2⟩ := twoFactorAuth_faithful env w store d now client info k s hf hready
  unfold presentBody
  rcases h : twoFactorAuth env w d now client info k s with ⟨r, s2, tr⟩
  rw [h] at h1 h2
  simp only at h1 h2
  subst h1
  simp only
  obtain ⟨recID, hc, hmem⟩ := hf.create client (presentRequest env d authZone fqdn value) s2
  rcases hcr : w.CreateRecord client (presentRequest env d authZone fqdn value) s2
    with ⟨res, s3⟩
  rw [hcr] at hc hmem
  simp only at hc hmem
  subst hc
  simp only
  exact ⟨trivial, recID, (hmem _).2 (Or.inl rfl)⟩

theorem cleanUpBody_faithful (env : Env) (w : Remote σ) (store : σ → Store)
    (d : DNSProvider) (now : Nat) (client : Client) (info : LoginResponse)
    (k authZone fqdn : String) (s : σ) (hf : FaithfulBackend w store)
    (hready : info.TFA = "GOOGLE-AUTH" →
      sharedSecret d k ≠ "" ∧ ∃ tan, env.GenerateCode (sharedSecret d k) now = .ok tan) :
    (cleanUpBody env w d now client info k authZone fqdn s).result = .returned none ∧
      ∀ e ∈ store (cleanUpBody env w d now client info k authZone fqdn s).state,
        ¬ (e.1 = env.UnFqdn authZone ∧ e.2.Name = env.UnFqdn fqdn ∧ e.2.Typ = "TXT") := by
  obtain ⟨h1, h2⟩ := twoFactorAuth_faithful env w store d now client info k s hf hready
  unfold cleanUpBody
  rcases h : twoFactorAuth env w d now client info k s with ⟨r, s2, tr⟩
  rw [h] at h1 h2
  simp only at h1 h2
  subst h1
  simp only
  obtain ⟨⟨resp, hi, hrec⟩, hst⟩ := hf.info client (infoRequest env authZone fqdn) s2
  rcases hir : w.Info client (infoRequest env authZone fqdn) s2 with ⟨res, s3⟩
  rw [hir] at hi hst
  simp only at hi hst
  subst hi
  simp only
  obtain ⟨hres, hmem⟩ := deleteLoop_faithful w store hf client resp.Records none s3
  refine ⟨by rw [hres], ?_⟩
  intro e he hmatch
  obtain ⟨hes, hids⟩ := (hmem e).1 he
  rw [hst] at hes
  have hin : e.2 ∈ resp.Records := by
    rw [hrec]
    refine ⟨?_, hmatch.2.1, hmatch.2.2⟩
    have : (infoRequest env authZone fqdn).Domain = e.1 := hmatch.1.symm
    rw [this]
    exact hes
  exact hids e.2 hin rfl

theorem Present_faithful_open (env : Env) (w : Remote σ) (store : σ → Store)
    (d : DNSProvider) (order : List String) (now : Nat) (domain keyAuth : String) (s : σ)
    (k authZone : String) (hf : FaithfulBackend w store)
    (hroute : getAccountDomain d order domain = .ok k)
    (hzone : env.FindZoneByFqdn (env.GetRecord domain keyAuth).1 = .ok authZone) :
    ∃ client info s1, d.clients.get? k = some client ∧
      (w.Login client s).1 = .ok info ∧ store s1 = store s ∧
      (Present env w d order now domain keyAuth s).result =
        (presentBody env w d now client info k authZone (env.GetRecord domain keyAuth).1
          (env.GetRecord domain keyAuth).2 s1).result ∧
      store (Present env w d order now domain keyAuth s).state =
        store (presentBody env w d now client info k authZone
          (env.GetRecord domain keyAuth).1 (env.GetRecord domain keyAuth).2 s1).state := by
  obtain ⟨_, client, hclient⟩ := getAccountDomain_client d order domain k hroute
  obtain ⟨⟨info, hinfo⟩, hst⟩ := hf.login client s
  have hlogin : w.Login client s = (.ok info, (w.Login client s).2) := by
    rw [← hinfo]
  have hopen := Present_open env w d order now domain keyAuth s k authZone client info
    (w.Login client s).2 hroute hzone hclient hlogin
  refine ⟨client, info, (w.Login client s).2, hclient, hinfo, hst, ?_, ?_⟩
  · rw [hopen]
  · rw [hopen]
    exact (hf.logout client _).2

theorem CleanUp_faithful_open (env : Env) (w : Remote σ) (store : σ → Store)
    (d : DNSProvider) (order : List String) (now : Nat) (domain keyAuth : String) (s : σ)
    (k authZone : String) (hf : FaithfulBackend w store)
    (hroute : getAccountDomain d order domain = .ok k)
    (hzone : env.FindZoneByFqdn (env.GetRecord domain keyAuth).1 = .ok authZone) :
    ∃ client info s1, d.clients.get? k = some client ∧
      (w.Login client s).1 = .ok info ∧ store s1 = store s ∧
      (CleanUp env w d order now domain keyAuth s).result =
        (cleanUpBody env w d now client info k authZone
          (env.GetRecord domain keyAuth).1 s1).result ∧
      store (CleanUp env w d order now domain keyAuth s).state =
        store (cleanUpBody env w d now client info k authZone
          (env.GetRecord domain keyAuth).1 s1).state := by
  obtain ⟨_, client, hclient⟩ := getAccountDomain_client d order domain k hroute
  obtain ⟨⟨info, hinfo⟩, hst⟩ := hf.login client s
  have hlogin : w.Login client s = (.ok info, (w.Login client s).2) := by
    rw [← hinfo]
  have hopen := CleanUp_open env w d order now domain keyAuth s k authZone client info
    (w.Login client s).2 hroute hzone hclient hlogin
  refine ⟨client, info, (w.Login client s).2, hclient, hinfo, hst, ?_, ?_⟩
  · rw [hopen]
  · rw [hopen]
    exact (hf.logout client _).2

/-- Counterexample to C7: the backend is faithful and every request and the zone lookup
succeed; `Present` resolves `a.sub.example.com` to the key `example.com`, whose account
has a shared secret, unlocks the session and stores the record; the `range` of `CleanUp`
visits `sub.example.com` first, whose account has no shared secret, so `CleanUp` fails
in the two-factor step after `Login`, and the record that `Present` stored is still
there. -/
theorem Present_then_CleanUp_leaves_record :
    FaithfulBackend (fakeRemote ⟨"GOOGLE-AUTH", none, []⟩) id ∧
      testEnv.FindZoneByFqdn (testEnv.GetRecord "a.sub.example.com" "token").1
        = .ok "example.com." ∧
      ["example.com", "sub.example.com"].Perm overlapProvider.clients.keys ∧
      ["sub.example.com", "example.com"].Perm overlapProvider.clients.keys ∧
      (Present testEnv (fakeRemote ⟨"GOOGLE-AUTH", none, []⟩) overlapProvider
        ["example.com", "sub.example.com"] 1700000000 "a.sub.example.com" "token"
        []).result = .returned none ∧
      (Present testEnv (fakeRemote ⟨"GOOGLE-AUTH", none, []⟩) overlapProvider
        ["example.com", "sub.example.com"] 1700000000 "a.sub.example.com" "token"
        []).trace
        = [Call.Login ⟨"user1", "password1", false⟩,
           Call.Unlock ⟨"user1", "password1", false⟩ "324550",
           Call.CreateRecord ⟨"user1", "password1", false⟩
             ⟨"example.com", "_acme-challenge.a.sub.example.com", "TXT",
               "PEaenWxYddN6Q_NT1PiOYfz4EsZu7jRXRlpAsNpBU-A", 300⟩,
           Call.Logout ⟨"user1", "password1", false⟩] ∧
      (CleanUp testEnv (fakeRemote ⟨"GOOGLE-AUTH", none, []⟩) overlapProvider
        ["sub.example.com", "example.com"] 1700000030 "a.sub.example.com" "token"
        (Present testEnv (fakeRemote ⟨"GOOGLE-AUTH", none, []⟩) overlapProvider
          ["example.com", "sub.example.com"] 1700000000 "a.sub.example.com" "token"
          []).state).trace
        = [Call.Login ⟨"user2", "password2", false⟩,
           Call.Logout ⟨"user2", "password2", false⟩] ∧
      (CleanUp testEnv (fakeRemote ⟨"GOOGLE-AUTH", none, []⟩) overlapProvider
        ["sub.example.com", "example.com"] 1700000030 "a.sub.example.com" "token"
        (Present testEnv (fakeRemote ⟨"GOOGLE-AUTH", none, []⟩) overlapProvider
          ["example.com", "sub.example.com"] 1700000000 "a.sub.example.com" "token"
          []).state).state
        = [("example.com",
            ⟨1, "_acme-challenge.a.sub.example.com", "TXT",
              "PEaenWxYddN6Q_NT1PiOYfz4EsZu7jRXRlpAsNpBU-A", 300⟩)] := by
  refine ⟨fakeRemote_faithful _, by rfl, by decide, by decide, by rfl, by rfl, by rfl,
    by rfl⟩

/-- Claim C7 as amended: against a faithful backend, when the zone lookup succeeds, the
`CleanUp` call resolves the domain to a key and the local part of its two-factor step
succeeds for that key, then after `Present` and `CleanUp` the `CleanUp` has returned nil
and no TXT record is left under the unqualified zone and record name derived from the
domain and the key authorization, whatever `Present` did.  When the `Present` call also
resolves the domain and the local part of its two-factor step succeeds, `Present`
returns nil and stores a TXT record under that zone and name. -/
theorem Present_then_CleanUp (env : Env) (w : Remote σ) (store : σ → Store)
    (d : DNSProvider) (order1 order2 : List String) (now1 now2 : Nat)
    (domain keyAuth : String) (s : σ) (k2 authZone : String)
    (hf : FaithfulBackend w store)
    (hzone : env.FindZoneByFqdn (env.GetRecord domain keyAuth).1 = .ok authZone)
    (hroute2 : getAccountDomain d order2 domain = .ok k2)
    (h2fa2 : twoFactorReady env w d now2 k2
      (Present env w d order1 now1 domain keyAuth s).state) :
    ((CleanUp env w d order2 now2 domain keyAuth
          (Present env w d order1 now1 domain keyAuth s).state).result = .returned none ∧
        ∀ e ∈ store (CleanUp env w d order2 now2 domain keyAuth
            (Present env w d order1 now1 domain keyAuth s).state).state,
          ¬ (e.1 = env.UnFqdn authZone ∧
              e.2.Name = env.UnFqdn (env.GetRecord domain keyAuth).1 ∧ e.2.Typ = "TXT")) ∧
      (∀ k1, getAccountDomain d order1 domain = .ok k1 →
        twoFactorReady env w d now1 k1 s →
        (Present env w d order1 now1 domain keyAuth s).result = .returned none ∧
        ∃ recID, (env.UnFqdn authZone,
            (⟨recID, env.UnFqdn (env.GetRecord domain keyAuth).1, "TXT",
              (env.GetRecord domain keyAuth).2, d.config.TTL⟩ : NameserverRecord)) ∈
          store (Present env w d order1 now1 domain keyAuth s).state) := by
  constructor
  · obtain ⟨c2, i2, t2, hcl2, hl2, _, hr2, hs2⟩ := CleanUp_faithful_open env w store d
      order2 now2 domain keyAuth (Present env w d order1 now1 domain keyAuth s).state
      k2 authZone hf hroute2 hzone
    obtain ⟨hc1, hc2⟩ := cleanUpBody_faithful env w store d now2 c2 i2 k2 authZone
      (env.GetRecord domain keyAuth).1 t2 hf (h2fa2 c2 i2 hcl2 hl2)
    refine ⟨?_, ?_⟩
    · rw [hr2, hc1]
    · rw [hs2]
      exact hc2
  · intro k1 hroute1 h2fa1
    obtain ⟨c1, i1, t1, hcl1, hl1, _, hr1, hs1⟩ := Present_faithful_open env w store d
      order1 now1 domain keyAuth s k1 authZone hf hroute1 hzone
    obtain ⟨hp1, hp2⟩ := presentBody_faithful env w store d now1 c1 i1 k1 authZone
      (env.GetRecord domain keyAuth).1 (env.GetRecord domain keyAuth).2 t1 hf
      (h2fa1 c1 i1 hcl1 hl1)
    refine ⟨?_, ?_⟩
    · rw [hr1, hp1]
    · rw [hs1]
      exact hp2

/-- Witness of the amended C7: only the key `example.com` matches `www.example.com`,
its account has a shared secret that the code generator accepts, and after `Present`
and `CleanUp` no record is left under the challenge name, the older challenge record
included, while the address record of the zone stays. -/
theorem Present_then_CleanUp_witness :
    getAccountDomain overlapProvider ["sub.example.com", "example.com"] "www.example.com"
        = .ok "example.com" ∧
      testEnv.GenerateCode (sharedSecret overlapProvider "example.com") 1700000030
        = .ok "367665" ∧
      (CleanUp testEnv (fakeRemote ⟨"GOOGLE-AUTH", none, []⟩) overlapProvider
          ["sub.example.com", "example.com"] 1700000030 "www.example.com" "token"
          (Present testEnv (fakeRemote ⟨"GOOGLE-AUTH", none, []⟩) overlapProvider
            ["example.com", "sub.example.com"] 1700000000 "www.example.com" "token"
            [("example.com", ⟨7, "_acme-challenge.www.example.com", "TXT", "old", 300⟩),
             ("example.com", ⟨8, "www.example.com", "A", "192.0.2.1", 300⟩)]).state).state
        = [("example.com", ⟨8, "www.example.com", "A", "192.0.2.1", 300⟩)] ∧
      ∀ e ∈ (CleanUp testEnv (fakeRemote ⟨"GOOGLE-AUTH", none, []⟩) overlapProvider
          ["sub.example.com", "example.com"] 1700000030 "www.example.com" "token"
          (Present testEnv (fakeRemote ⟨"GOOGLE-AUTH", none, []⟩) overlapProvider
            ["example.com", "sub.example.com"] 1700000000 "www.example.com" "token"
            [("example.com", ⟨7, "_acme-challenge.www.example.com", "TXT", "old", 300⟩),
             ("example.com", ⟨8, "www.example.com", "A", "192.0.2.1", 300⟩)]).state).state,
        ¬ (e.1 = testEnv.UnFqdn "example.com." ∧
            e.2.Name = testEnv.UnFqdn (testEnv.GetRecord "www.example.com" "token").1 ∧
            e.2.Typ = "TXT") :=
  ⟨by rfl, by rfl, by rfl,
    (Present_then_CleanUp testEnv (fakeRemote ⟨"GOOGLE-AUTH", none, []⟩) id overlapProvider
      ["example.com", "sub.example.com"] ["sub.example.com", "example.com"]
      1700000000 1700000030 "www.example.com" "token"
      [("example.com", ⟨7, "_acme-challenge.www.example.com", "TXT", "old", 300⟩),
       ("example.com", ⟨8, "www.example.com", "A", "192.0.2.1", 300⟩)]
      "example.com" "example.com."
      (fakeRemote_faithful _) (by rfl) (by rfl)
      (fun _ _ _ _ _ => ⟨by decide, "367665", by rfl⟩)).1.2⟩

end RoundTrip

/-! ## Loading the configuration -/

theorem readAccount_ok_iff (fsys : Files) (path : String) (domains : List String)
    (a : InwxAccount) :
    readAccount fsys path domains = .ok a ↔
      ∃ raw acc, fsys.ReadFile path = .ok raw ∧ fsys.UnmarshalAccount raw = .ok acc ∧
        acc.InwxUsername ≠ "" ∧ acc.InwxPassword ≠ "" ∧
        a = { acc with Domains := domains } := by
  constructor
  · intro h
    unfold readAccount at h
    cases hr : fsys.ReadFile path with
    | error err => simp [hr] at h
    | ok raw =>
      cases hu : fsys.UnmarshalAccount raw with
      | error err => simp [hr, hu] at h
      | ok acc =>
        by_cases hcred : acc.InwxUsername = "" ∨ acc.InwxPassword = ""
        · simp [hr, hu, hcred] at h
        · simp only [hr, hu, hcred, if_false, Except.ok.injEq] at h
          push_neg at hcred
          exact ⟨raw, acc, rfl, hu, hcred.1, hcred.2, h.symm⟩
  · rintro ⟨raw, acc, hraw, hacc, h1, h2, rfl⟩
    have hcred : ¬ (acc.InwxUsername = "" ∨ acc.InwxPassword = "") := by
      rintro (h | h)
      · exact h1 h
      · exact h2 h
    simp [readAccount, hraw, hacc, hcred]

theorem GoMap.mem_range {V : Type} (m : GoMap V) (order : List String) (k : String) (v : V)
    (hk : k ∈ order) (hv : m.get? k = some v) : (k, v) ∈ m.range order := by
  simp only [GoMap.range, List.mem_filterMap]
  exact ⟨k, hk, by simp [hv]⟩

theorem getAccountsLoop_error (fsys : Files) (entries : List (String × List String))
    (acc0 : List InwxAccount)
    (h : ∃ e ∈ entries, ∃ err, readAccount fsys e.1 e.2 = .error err) :
    ∃ err, getAccountsLoop fsys entries acc0 = .error err := by
  induction entries generalizing acc0 with
  | nil => simp at h
  | cons e rest ih =>
    obtain ⟨path, domains⟩ := e
    cases hr : readAccount fsys path domains with
    | error err => exact ⟨err, by simp [getAccountsLoop, hr]⟩
    | ok a =>
      simp only [getAccountsLoop, hr]
      apply ih
      obtain ⟨e', he', err, herr⟩ := h
      rcases List.mem_cons.1 he' with rfl | hmem
      · simp only at herr
        rw [hr] at herr
        cases herr
      · exact ⟨e', hmem, err, herr⟩

theorem getAccountsLoop_range (fsys : Files) (m : GoMap (List String)) (order : List String)
    (acc0 : List InwxAccount) (hmem : ∀ k ∈ order, k ∈ m.keys)
    (hvalid : ∀ path ∈ order, ∃ raw acc, fsys.ReadFile path = .ok raw ∧
      fsys.UnmarshalAccount raw = .ok acc ∧ acc.InwxUsername ≠ "" ∧ acc.InwxPassword ≠ "") :
    ∃ accounts, getAccountsLoop fsys (m.range order) acc0 = .ok (acc0 ++ accounts) ∧
      List.Forall₂ (fun path a => ∃ domains raw acc, m.get? path = some domains ∧
        fsys.ReadFile path = .ok raw ∧ fsys.UnmarshalAccount raw = .ok acc ∧
        a = { acc with Domains := domains }) order accounts := by
  induction order generalizing acc0 with
  | nil => exact ⟨[], by simp [GoMap.range, getAccountsLoop], List.Forall₂.nil⟩
  | cons k rest ih =>
    have hk : (m.get? k).isSome = true := (GoMap.get?_isSome_iff m k).2 (hmem k (by simp))
    obtain ⟨domains, hdom⟩ := Option.isSome_iff_exists.1 hk
    obtain ⟨raw, acc, hraw, hacc, hu, hp⟩ := hvalid k (by simp)
    have hread : readAccount fsys k domains = .ok { acc with Domains := domains } :=
      (readAccount_ok_iff _ _ _ _).2 ⟨raw, acc, hraw, hacc, hu, hp, rfl⟩
    obtain ⟨accounts, hloop, hall⟩ := ih (acc0 ++ [{ acc with Domains := domains }])
      (fun k' hk' => hmem k' (by simp [hk'])) (fun k' hk' => hvalid k' (by simp [hk']))
    refine ⟨{ acc with Domains := domains } :: accounts, ?_,
      List.Forall₂.cons ⟨domains, raw, acc, hdom, hraw, hacc, rfl⟩ hall⟩
    have hrange : m.range (k :: rest) = (k, domains) :: m.range rest := by
      simp [GoMap.range, List.filterMap_cons, hdom]
    rw [hrange]
    simp only [getAccountsLoop, hread]
    rw [hloop]
    simp

/-- Claim C8: for a configuration whose mapping is not empty and all of whose sources
can be read, parse and have a non-empty username and password, `getAccounts` succeeds;
it returns as many accounts as the mapping has entries, one per entry in the order of
the `range`, each with the parsed credentials of its source and with `Domains` equal to
the suffix list of its entry.  And a successful `readAccount(path, domains)` returns the
parsed username, password and shared secret with `Domains` equal to `domains`. -/
theorem getAccounts_valid (fsys : Files) (order : List String) (configFile configJson : String)
    (domainConfig : GoMap (List String))
    (hread : fsys.ReadFile configFile = .ok configJson)
    (hparse : fsys.UnmarshalConfig configJson = .ok ⟨some domainConfig⟩)
    (hne : domainConfig ≠ [])
    (horder : order.Perm domainConfig.keys)
    (hvalid : ∀ path ∈ domainConfig.keys, ∃ raw acc, fsys.ReadFile path = .ok raw ∧
      fsys.UnmarshalAccount raw = .ok acc ∧ acc.InwxUsername ≠ "" ∧ acc.InwxPassword ≠ "") :
    (∃ accounts, getAccounts fsys order configFile = .ok accounts ∧
        accounts.length = domainConfig.length ∧
        List.Forall₂ (fun path a => ∃ domains raw acc, domainConfig.get? path = some domains ∧
          fsys.ReadFile path = .ok raw ∧ fsys.UnmarshalAccount raw = .ok acc ∧
          a = { acc with Domains := domains }) order accounts) ∧
      (∀ path domains a, readAccount fsys path domains = .ok a →
        a.Domains = domains ∧
        ∃ raw acc, fsys.ReadFile path = .ok raw ∧ fsys.UnmarshalAccount raw = .ok acc ∧
          a.InwxUsername = acc.InwxUsername ∧ a.InwxPassword = acc.InwxPassword ∧
          a.InwxSharedSecret = acc.InwxSharedSecret) := by
  constructor
  · obtain ⟨accounts, hloop, hall⟩ := getAccountsLoop_range fsys domainConfig order []
      (fun k hk => horder.mem_iff.1 hk) (fun k hk => hvalid k (horder.mem_iff.1 hk))
    refine ⟨accounts, ?_, ?_, hall⟩
    · have hlen : domainConfig.length ≠ 0 := by
        intro h
        exact hne (List.length_eq_zero.1 h)
      simp only [getAccounts, hread, hparse, hlen, if_false]
      rw [hloop]
      simp
    · rw [← hall.length_eq, horder.length_eq]
      simp [GoMap.keys]
  · intro path domains a h
    obtain ⟨raw, acc, hraw, hacc, _, _, rfl⟩ := (readAccount_ok_iff _ _ _ _).1 h
    exact ⟨rfl, raw, acc, hraw, hacc, rfl, rfl, rfl⟩

/-- Witness of C8: the test configuration with two accounts yields two accounts, with
one and with two suffixes. -/
theorem getAccounts_valid_witness :
    testFiles.ReadFile "data/accounts.json" = .ok "accounts" ∧
      ∃ accounts, getAccounts testFiles ["data/account1.json", "data/account2.json"]
          "data/accounts.json" = .ok accounts ∧ accounts.length = 2 :=
  ⟨by rfl,
    (getAccounts_valid testFiles ["data/account1.json", "data/account2.json"]
      "data/accounts.json" "accounts"
      [("data/account1.json", ["example.com"]),
       ("data/account2.json", ["example.net", "example.org"])]
      (by rfl) (by rfl) (by decide) (by decide)
      (by
        intro path hpath
        simp only [GoMap.keys, List.map_cons, List.map_nil, List.mem_cons,
          List.mem_singleton, List.not_mem_nil, or_false] at hpath
        rcases hpath with rfl | rfl
        · exact ⟨"account1", ⟨"user1", "password1", "ABCD1234", []⟩, by rfl, by rfl,
            by decide, by decide⟩
        · exact ⟨"account2", ⟨"user2", "password2", "", []⟩, by rfl, by rfl,
            by decide, by decide⟩)).1.imp (fun _ h => ⟨h.1, h.2.1⟩)⟩

/-- Claim C9: when the source of an account can be read and parses, `readAccount` returns
an error exactly when the username or the password is empty, whatever the shared secret
is; and `getAccounts` returns an error, and no accounts, when the mapping of the
configuration is missing or empty, and when the loading of at least one entry of the
mapping fails, whatever the other entries are. -/
theorem load_failures (fsys : Files) :
    (∀ path domains raw acc, fsys.ReadFile path = .ok raw →
        fsys.UnmarshalAccount raw = .ok acc →
        ((∃ err, readAccount fsys path domains = .error err) ↔
          (acc.InwxUsername = "" ∨ acc.InwxPassword = ""))) ∧
      (∀ order configFile configJson config, fsys.ReadFile configFile = .ok configJson →
        fsys.UnmarshalConfig configJson = .ok config →
        (config.DomainConfig = none ∨ config.DomainConfig = some []) →
        ∃ err, getAccounts fsys order configFile = .error err) ∧
      (∀ order configFile configJson domainConfig,
        fsys.ReadFile configFile = .ok configJson →
        fsys.UnmarshalConfig configJson = .ok ⟨some domainConfig⟩ →
        order.Perm domainConfig.keys →
        (∃ path domains err, domainConfig.get? path = some domains ∧
          readAccount fsys path domains = .error err) →
        ∃ err, getAccounts fsys order configFile = .error err) := by
  refine ⟨?_, ?_, ?_⟩
  · intro path domains raw acc hraw hacc
    unfold readAccount
    by_cases hcred : acc.InwxUsername = "" ∨ acc.InwxPassword = ""
    · simp [hraw, hacc, hcred]
    · simp [hraw, hacc, hcred]
  · intro order configFile configJson config hread hparse hempty
    rcases hempty with h | h
    · exact ⟨.plain "invalid inwx configuration", by simp [getAccounts, hread, hparse, h]⟩
    · exact ⟨.plain "invalid inwx configuration", by simp [getAccounts, hread, hparse, h]⟩
  · intro order configFile configJson domainConfig hread hparse horder hbad
    obtain ⟨path, domains, err, hget, herr⟩ := hbad
    have hkey : path ∈ domainConfig.keys :=
      (GoMap.get?_isSome_iff _ _).1 (by rw [hget]; rfl)
    have hmem := GoMap.mem_range domainConfig order path domains (horder.mem_iff.2 hkey) hget
    by_cases hlen : domainConfig.length = 0
    · exact ⟨.plain "invalid inwx configuration",
        by simp [getAccounts, hread, hparse, hlen]⟩
    · obtain ⟨e, he⟩ := getAccountsLoop_error fsys (domainConfig.range order) []
        ⟨(path, domains), hmem, err, herr⟩
      exact ⟨e, by simp [getAccounts, hread, hparse, hlen, he]⟩

/-- Witness of C9: the second entry of the mapping names an account without a password,
and `getAccounts` fails although the first entry is valid. -/
theorem load_failures_witness :
    (∃ a, readAccount brokenFiles "data/account1.json" ["example.com"] = .ok a) ∧
      (∃ err, readAccount brokenFiles "data/accountMissing.json" ["example.net"]
        = .error err) ∧
      ∃ err, getAccounts brokenFiles ["data/account1.json", "data/accountMissing.json"]
        "data/accounts.json" = .error err :=
  ⟨⟨_, by rfl⟩, ⟨_, by rfl⟩,
    (load_failures brokenFiles).2.2
      ["data/account1.json", "data/accountMissing.json"] "data/accounts.json" "accounts"
      [("data/account1.json", ["example.com"]), ("data/accountMissing.json", ["example.net"])]
      (by rfl) (by rfl) (by decide)
      ⟨"data/accountMissing.json", ["example.net"], _, by rfl, by rfl⟩⟩

/-! ## Building the routing table -/

theorem GoMap.get?_set {V : Type} (m : GoMap V) (k k' : String) (v : V) :
    (m.set k v).get? k' = if k = k' then some v else m.get? k' := by
  induction m with
  | nil => simp [GoMap.set, GoMap.get?]
  | cons e rest ih =>
    obtain ⟨a, b⟩ := e
    by_cases hak : a = k
    · subst hak
      by_cases hk : a = k' <;> simp [GoMap.set, GoMap.get?, hk]
    · by_cases hk : k = k'
      · subst hk
        simp [GoMap.set, GoMap.get?, hak, ih]
      · simp [GoMap.set, GoMap.get?, hak, ih, hk]

theorem GoMap.keys_set {V : Type} (m : GoMap V) (k : String) (v : V) :
    (m.set k v).keys = if k ∈ m.keys then m.keys else m.keys ++ [k] := by
  induction m with
  | nil => simp [GoMap.set, GoMap.keys]
  | cons e rest ih =>
    obtain ⟨a, b⟩ := e
    by_cases hak : a = k
    · subst hak
      simp [GoMap.set, GoMap.keys]
    · have hka : ¬ k = a := fun h => hak h.symm
      simp only [GoMap.keys] at ih
      by_cases hmem : k ∈ List.map Prod.fst rest
      · simp [GoMap.set, GoMap.keys, hak, hka, hmem, ih]
      · simp [GoMap.set, GoMap.keys, hak, hka, hmem, ih]

theorem foldl_set_get? {V : Type} (ds : List String) (v : V) (m : GoMap V) (k : String) :
    (ds.foldl (fun m k => m.set k v) m).get? k = if k ∈ ds then some v else m.get? k := by
  induction ds generalizing m with
  | nil => simp
  | cons a rest ih =>
    simp only [List.foldl_cons, ih, GoMap.get?_set, List.mem_cons]
    by_cases hr : k ∈ rest
    · simp [hr]
    · by_cases ha : a = k
      · simp [ha]
      · have ha' : ¬ k = a := fun h => ha h.symm
        simp [hr, ha, ha']

theorem foldl_set_keys {V : Type} (ds : List String) (v : V) (m : GoMap V) :
    (ds.foldl (fun m k => m.set k v) m).keys =
      ds.foldl (fun ks k => if k ∈ ks then ks else ks ++ [k]) m.keys := by
  induction ds generalizing m with
  | nil => rfl
  | cons a rest ih => simp only [List.foldl_cons, ih, GoMap.keys_set]

theorem foldl_addKey_mem (ds ks : List String) (k : String) :
    k ∈ ds.foldl (fun ks k => if k ∈ ks then ks else ks ++ [k]) ks ↔ k ∈ ks ∨ k ∈ ds := by
  induction ds generalizing ks with
  | nil => simp
  | cons a rest ih =>
    simp only [List.foldl_cons, ih, List.mem_cons]
    by_cases ha : a ∈ ks
    · simp only [ha, if_true]
      constructor
      · rintro (h | h)
        · exact Or.inl h
        · exact Or.inr (Or.inr h)
      · rintro (h | rfl | h)
        · exact Or.inl h
        · exact Or.inl ha
        · exact Or.inr h
    · simp only [ha, if_false, List.mem_append, List.mem_singleton]
      tauto

theorem foldl_addKey_nodup (ds ks : List String) (h : ks.Nodup) :
    (ds.foldl (fun ks k => if k ∈ ks then ks else ks ++ [k]) ks).Nodup := by
  induction ds generalizing ks with
  | nil => simpa using h
  | cons a rest ih =>
    simp only [List.foldl_cons]
    apply ih
    by_cases ha : a ∈ ks
    · simpa [ha] using h
    · simp only [ha, if_false]
      rw [List.nodup_append]
      refine ⟨h, List.nodup_singleton a, ?_⟩
      intro x hx hy
      simp only [List.mem_singleton] at hy
      subst hy
      exact ha hx

theorem addDomains_maps (client : Client) (secret : String) (ds : List String)
    (d : DNSProvider) :
    (addDomains client secret ds d).clients = ds.foldl (fun m k => m.set k client) d.clients ∧
      (addDomains client secret ds d).SharedSecrets
        = ds.foldl (fun m k => m.set k secret) d.SharedSecrets := by
  induction ds generalizing d with
  | nil => exact ⟨rfl, rfl⟩
  | cons a rest ih =>
    simp only [addDomains, List.foldl_cons]
    exact ih _

theorem addAccounts_keys (opts : ClientOptions) (accounts : List InwxAccount)
    (d : DNSProvider) :
    (addAccounts opts accounts d).clients.keys =
        (accounts.flatMap (fun a => a.Domains)).foldl
          (fun ks k => if k ∈ ks then ks else ks ++ [k]) d.clients.keys ∧
      (addAccounts opts accounts d).SharedSecrets.keys =
        (accounts.flatMap (fun a => a.Domains)).foldl
          (fun ks k => if k ∈ ks then ks else ks ++ [k]) d.SharedSecrets.keys := by
  induction accounts generalizing d with
  | nil => exact ⟨rfl, rfl⟩
  | cons a rest ih =>
    obtain ⟨h1, h2⟩ := addDomains_maps (NewClient a.InwxUsername a.InwxPassword opts)
      a.InwxSharedSecret a.Domains d
    simp only [addAccounts, List.flatMap_cons, List.foldl_append]
    rw [(ih _).1, (ih _).2, h1, h2, foldl_set_keys, foldl_set_keys]
    exact ⟨rfl, rfl⟩

theorem addAccounts_get?_of_not_mem (opts : ClientOptions) (accounts : List InwxAccount)
    (d : DNSProvider) (k : String) (h : ∀ b ∈ accounts, k ∉ b.Domains) :
    (addAccounts opts accounts d).clients.get? k = d.clients.get? k ∧
      (addAccounts opts accounts d).SharedSecrets.get? k = d.SharedSecrets.get? k := by
  induction accounts generalizing d with
  | nil => exact ⟨rfl, rfl⟩
  | cons a rest ih =>
    obtain ⟨h1, h2⟩ := addDomains_maps (NewClient a.InwxUsername a.InwxPassword opts)
      a.InwxSharedSecret a.Domains d
    have ha : k ∉ a.Domains := h a (by simp)
    have hrest := ih (addDomains (NewClient a.InwxUsername a.InwxPassword opts)
      a.InwxSharedSecret a.Domains d) (fun b hb => h b (by simp [hb]))
    simp only [addAccounts]
    rw [hrest.1, hrest.2, h1, h2, foldl_set_get?, foldl_set_get?]
    simp [ha]

theorem addAccounts_get?_last (opts : ClientOptions) (pre : List InwxAccount)
    (a : InwxAccount) (post : List InwxAccount) (d : DNSProvider) (k : String)
    (hk : k ∈ a.Domains) (hpost : ∀ b ∈ post, k ∉ b.Domains) :
    (addAccounts opts (pre ++ a :: post) d).clients.get? k
        = some (NewClient a.InwxUsername a.InwxPassword opts) ∧
      (addAccounts opts (pre ++ a :: post) d).SharedSecrets.get? k
        = some a.InwxSharedSecret := by
  induction pre generalizing d with
  | nil =>
    obtain ⟨h1, h2⟩ := addDomains_maps (NewClient a.InwxUsername a.InwxPassword opts)
      a.InwxSharedSecret a.Domains d
    have hrest := addAccounts_get?_of_not_mem opts post
      (addDomains (NewClient a.InwxUsername a.InwxPassword opts)
        a.InwxSharedSecret a.Domains d) k hpost
    simp only [List.nil_append, addAccounts]
    rw [hrest.1, hrest.2, h1, h2, foldl_set_get?, foldl_set_get?]
    simp [hk]
  | cons b pre' ih =>
    simp only [List.cons_append, addAccounts]
    exact ih _

theorem exists_last_account (accounts : List InwxAccount) (k : String)
    (h : ∃ a ∈ accounts, k ∈ a.Domains) :
    ∃ pre a post, accounts = pre ++ a :: post ∧ k ∈ a.Domains ∧
      ∀ b ∈ post, k ∉ b.Domains := by
  induction accounts with
  | nil => simp at h
  | cons a rest ih =>
    by_cases hrest : ∃ b ∈ rest, k ∈ b.Domains
    · obtain ⟨pre, a', post, heq, hk, hpost⟩ := ih hrest
      exact ⟨a :: pre, a', post, by rw [heq]; rfl, hk, hpost⟩
    · obtain ⟨a', ha', hk⟩ := h
      rcases List.mem_cons.1 ha' with rfl | hmem
      · exact ⟨[], a', rest, rfl, hk, fun b hb hkb => hrest ⟨b, hb, hkb⟩⟩
      · exact absurd ⟨a', hmem, hk⟩ hrest

/-- Claim C10: when `addAccountConfig` runs on a provider whose two maps are empty and
the accounts load, the keys of `clients` and the keys of `SharedSecrets` are the same,
they are exactly the suffixes listed by some account, each key occurs once, so both
maps have as many entries as there are distinct suffixes; and for every key the client
and the shared secret are those of the last account in the list that lists the key. -/
theorem addAccountConfig_table (fsys : Files) (order : List String) (d : DNSProvider)
    (configFile : String) (opts : ClientOptions) (accounts : List InwxAccount)
    (hload : getAccounts fsys order configFile = .ok accounts)
    (hclients : d.clients = []) (hsecrets : d.SharedSecrets = []) :
    ∃ d', addAccountConfig fsys order d configFile opts = .ok d' ∧
      d'.clients.keys = d'.SharedSecrets.keys ∧
      (∀ k, k ∈ d'.clients.keys ↔ ∃ a ∈ accounts, k ∈ a.Domains) ∧
      d'.clients.keys.Nodup ∧
      d'.clients.length = (accounts.flatMap (fun a => a.Domains)).dedup.length ∧
      d'.SharedSecrets.length = (accounts.flatMap (fun a => a.Domains)).dedup.length ∧
      (∀ k ∈ d'.clients.keys, ∃ pre a post, accounts = pre ++ a :: post ∧ k ∈ a.Domains ∧
        (∀ b ∈ post, k ∉ b.Domains) ∧
        d'.clients.get? k = some (NewClient a.InwxUsername a.InwxPassword opts) ∧
        d'.SharedSecrets.get? k = some a.InwxSharedSecret) ∧
      (∀ pre a post k, accounts = pre ++ a :: post → k ∈ a.Domains →
        (∀ b ∈ post, k ∉ b.Domains) →
        d'.clients.get? k = some (NewClient a.InwxUsername a.InwxPassword opts) ∧
        d'.SharedSecrets.get? k = some a.InwxSharedSecret) := by
  refine ⟨addAccounts opts accounts d, by simp [addAccountConfig, hload], ?_⟩
  obtain ⟨hk1, hk2⟩ := addAccounts_keys opts accounts d
  have hc0 : d.clients.keys = [] := by rw [hclients]; rfl
  have hs0 : d.SharedSecrets.keys = [] := by rw [hsecrets]; rfl
  rw [hc0] at hk1
  rw [hs0] at hk2
  have hmem : ∀ k, k ∈ (addAccounts opts accounts d).clients.keys ↔
      ∃ a ∈ accounts, k ∈ a.Domains := by
    intro k
    rw [hk1, foldl_addKey_mem]
    simp [List.mem_flatMap]
  have hnodup : (addAccounts opts accounts d).clients.keys.Nodup := by
    rw [hk1]
    exact foldl_addKey_nodup _ _ List.nodup_nil
  have hlen : (addAccounts opts accounts d).clients.length
      = (accounts.flatMap (fun a => a.Domains)).dedup.length := by
    have hperm : ((addAccounts opts accounts d).clients.keys).Perm
        (accounts.flatMap (fun a => a.Domains)).dedup := by
      rw [List.perm_ext_iff_of_nodup hnodup (List.nodup_dedup _)]
      intro k
      rw [hmem, List.mem_dedup, List.mem_flatMap]
    have := hperm.length_eq
    simpa [GoMap.keys] using this
  have hkeys : (addAccounts opts accounts d).clients.keys
      = (addAccounts opts accounts d).SharedSecrets.keys := by rw [hk1, hk2]
  refine ⟨hkeys, hmem, hnodup, hlen, ?_, ?_, ?_⟩
  · have h1 : (addAccounts opts accounts d).SharedSecrets.length
        = (addAccounts opts accounts d).SharedSecrets.keys.length := by simp [GoMap.keys]
    have h2 : (addAccounts opts accounts d).clients.length
        = (addAccounts opts accounts d).clients.keys.length := by simp [GoMap.keys]
    rw [h1, ← hkeys, ← h2, hlen]
  · intro k hk
    obtain ⟨pre, a, post, hacc, hka, hpost⟩ := exists_last_account accounts k ((hmem k).1 hk)
    subst hacc
    exact ⟨pre, a, post, rfl, hka, hpost, addAccounts_get?_last opts pre a post d k hka hpost⟩
  · intro pre a post k hacc hk hpost
    subst hacc
    exact addAccounts_get?_last opts pre a post d k hk hpost

/-- Witness of C10: the test configuration, two accounts with one and with two
suffixes, gives a table of three entries. -/
theorem addAccountConfig_table_witness :
    getAccounts testFiles ["data/account1.json", "data/account2.json"] "data/accounts.json"
        = .ok [⟨"user1", "password1", "ABCD1234", ["example.com"]⟩,
               ⟨"user2", "password2", "", ["example.net", "example.org"]⟩] ∧
      ∃ d', addAccountConfig testFiles ["data/account1.json", "data/account2.json"]
          emptyProvider "data/accounts.json" ⟨false⟩ = .ok d' ∧
        d'.clients.length = 3 ∧ d'.SharedSecrets.length = 3 :=
  ⟨by rfl,
    (addAccountConfig_table testFiles ["data/account1.json", "data/account2.json"]
      emptyProvider "data/accounts.json" ⟨false⟩
      [⟨"user1", "password1", "ABCD1234", ["example.com"]⟩,
       ⟨"user2", "password2", "", ["example.net", "example.org"]⟩]
      (by rfl) (by rfl) (by rfl)).imp
      (fun _ h => ⟨h.1, h.2.2.2.2.1.trans (by decide), h.2.2.2.2.2.1.trans (by decide)⟩)⟩

end Inwxmulti
